import Mathlib

/-!
Verification development for the QuizWall game server
(`src/server/src/domain/QuizEngine.ts`, `RoomManager.ts`, `TeamManager.ts`,
`src/server/src/data/teamRepository.ts`, and the reveal callback of the
event-handler layer).  Each definition is a shallow embedding of the
corresponding TypeScript function; nondeterministic inputs
(`Math.random`, asynchronous question refreshes) are passed explicitly
as parameters.  JavaScript `Set`/`Map` values are modelled as
insertion-ordered lists, matching their iteration semantics.
-/

namespace QuizWall

/-- `QuestionPhase` from `shared/types.ts` (declared there, used throughout
`QuizEngine.ts`): `'analysis' | 'selection' | 'reveal'`. -/
inductive QuestionPhase where
  | analysis
  | selection
  | reveal
deriving DecidableEq, Repr

/-- The game-over reason union `'time' | 'completed' | 'all_wrong'`
(`QuizEngine.ts`, field `lastGameOverReason`). -/
inductive GameOverReason where
  | time
  | completed
  | all_wrong
deriving DecidableEq, Repr

/-- `QuestionOption` from `shared/types.ts`: `{ id, text }`. -/
structure QuestionOption where
  id : String
  text : String
deriving DecidableEq, Repr

/-- `ServerQuestion` from `shared/types.ts`: the full question including the
`correct` option id (server-only). -/
structure ServerQuestion where
  id : Nat
  text : String
  code : Option String
  options : List QuestionOption
  correct : String
deriving DecidableEq, Repr

/-- `ClientQuestion` from `shared/types.ts`: the client-facing projection,
which has no `correct` field. -/
structure ClientQuestion where
  id : Nat
  text : String
  code : Option String
  options : List QuestionOption
deriving DecidableEq, Repr

/-- `PlayerSelectionPayload` from `shared/types.ts`:
`{ controllerId, orbId, colorIndex }`. -/
structure PlayerSelectionPayload where
  controllerId : String
  orbId : String
  colorIndex : Nat
deriving DecidableEq, Repr

/-- `RevealResultPayload` from `shared/types.ts`:
`{ correctOrbId, selections, anyCorrect, points }`. -/
structure RevealResultPayload where
  correctOrbId : String
  selections : List PlayerSelectionPayload
  anyCorrect : Bool
  points : Nat
deriving DecidableEq, Repr

/-- Strips leading whitespace from a character list (one side of the
JavaScript `String.prototype.trim`). -/
def trimLeft : List Char → List Char
  | [] => []
  | c :: cs => if c.isWhitespace then trimLeft cs else c :: cs

/-- JavaScript `s.trim()` at the character level: whitespace removed from
both ends. -/
def trimChars (cs : List Char) : List Char :=
  (trimLeft (trimLeft cs.reverse).reverse)

/-- The normalisation applied to question texts everywhere in
`QuizEngine.ts`: `q.text.trim().toLowerCase()`, embedded as a
character-level map so that it is kernel-computable. -/
def normalizeText (s : String) : String :=
  String.mk ((trimChars s.data).map Char.toLower)

/-- JavaScript `Set.add` on an insertion-ordered list: appends the element
only when it is not already present. -/
def setAdd (l : List String) (t : String) : List String :=
  if l.contains t then l else l ++ [t]

/-- The mutable state of `QuizEngine` (`QuizEngine.ts`), restricted to the
fields read or written by the embedded operations.  Wall-clock timer handles
(`timerInterval`, `phaseInterval`) are outside the embedding; `timeLeft` and
`phaseTimeLeft` are kept as plain counters. -/
structure EngineState where
  questions : List ServerQuestion
  currentIndex : Nat
  timeLeft : Nat
  questionsAnswered : Nat
  sessionQuestionsAnswered : Nat
  usedQuestionTexts : List String
  sessionQuestionLimit : Nat
  allQuestionsCompleted : Bool
  lastGameOverReason : GameOverReason
  currentPhase : QuestionPhase
  phaseTimeLeft : Nat
  playerSelections : List PlayerSelectionPayload
  questionNumberForUI : Nat
deriving DecidableEq, Repr

/-- `PHASE_DURATIONS` from `QuizEngine.ts`: analysis 10s, selection 7s,
reveal 3s. -/
def PHASE_DURATIONS : QuestionPhase → Nat
  | .analysis => 10
  | .selection => 7
  | .reveal => 3

/-- `QuizEngine.beginPhase` (state part): sets the phase and its countdown,
and clears `playerSelections` only when a new question starts (analysis). -/
def beginPhase (e : EngineState) (phase : QuestionPhase) : EngineState :=
  { e with
      currentPhase := phase
      phaseTimeLeft := PHASE_DURATIONS phase
      playerSelections := if phase = QuestionPhase.analysis then [] else e.playerSelections }

/-- Lookup in the `playerSelections` map (keyed by `controllerId`). -/
def selFind? (l : List PlayerSelectionPayload) (controllerId : String) :
    Option PlayerSelectionPayload :=
  l.find? (fun s => s.controllerId == controllerId)

/-- `QuizEngine.recordSelection`: accepts a selection only during the
`selection` phase and only if this controller has not selected yet; returns
whether it was recorded together with the new state. -/
def recordSelection (e : EngineState) (controllerId orbId : String) (colorIndex : Nat) :
    Bool × EngineState :=
  if e.currentPhase ≠ QuestionPhase.selection then
    (false, e)
  else if (selFind? e.playerSelections controllerId).isSome then
    (false, e)
  else
    (true, { e with playerSelections :=
        e.playerSelections ++ [⟨controllerId, orbId, colorIndex⟩] })

/-- `QuizEngine.hasSelected`. -/
def hasSelected (e : EngineState) (controllerId : String) : Bool :=
  (selFind? e.playerSelections controllerId).isSome

/-- `QuizEngine.findCurrentQuestion`: the question whose normalised text is
the most recently inserted element of `usedQuestionTexts`. -/
def findCurrentQuestion (e : EngineState) : Option ServerQuestion :=
  match e.usedQuestionTexts.getLast? with
  | none => none
  | some lastUsedText => e.questions.find? (fun q => normalizeText q.text == lastUsedText)

/-- The projection `{ id: q.id, text: q.text, code: q.code, options: q.options }`
built at both client-facing return sites of `QuizEngine.ts`
(`getCurrentQuestion` and `getLastSelectedQuestion`). -/
def clientProjection (q : ServerQuestion) : ClientQuestion :=
  { id := q.id, text := q.text, code := q.code, options := q.options }

/-- `QuizEngine.getLastSelectedQuestion`. -/
def getLastSelectedQuestion (e : EngineState) : Option ClientQuestion :=
  (findCurrentQuestion e).map clientProjection

/-- The filter `this.questions.filter(q => !this.usedQuestionTexts.has(...))`
used by `getCurrentQuestion` and `nextQuestion`. -/
def availableQuestions (e : EngineState) : List ServerQuestion :=
  e.questions.filter (fun q => !(e.usedQuestionTexts.contains (normalizeText q.text)))

/-- `QuizEngine.getCurrentQuestion`, with the `Math.random()` draw passed in
as `r` (the chosen index is `r % availableQuestions.length`, always in
range, mirroring `Math.floor(Math.random() * len)`).  Returns `none` when
every question text has been served, otherwise marks the picked question's
normalised text used and returns the client projection. -/
def getCurrentQuestion (e : EngineState) (r : Nat) : Option ClientQuestion × EngineState :=
  let avail := availableQuestions e
  match avail[r % avail.length]? with
  | none => (none, e)
  | some q =>
      (some (clientProjection q),
       { e with usedQuestionTexts := setAdd e.usedQuestionTexts (normalizeText q.text) })

/-- `QuizEngine.reset`: clears the round state and the used-text set and
installs the reshuffled question list (`shuffled` stands for the result of
`shuffleQuestions`, a permutation of the previous pool).  The
session-lifetime counter `sessionQuestionsAnswered` is preserved. -/
def reset (e : EngineState) (shuffled : List ServerQuestion) : EngineState :=
  { e with
      questions := shuffled
      timeLeft := 30
      currentIndex := 0
      questionsAnswered := 0
      allQuestionsCompleted := false
      usedQuestionTexts := []
      playerSelections := []
      questionNumberForUI := 0
      currentPhase := QuestionPhase.analysis }

/-- The question-pool refresh inside `nextQuestion`: the awaited
`getSessionQuestions` result (`fetched`, `none` when the call throws) replaces
`questions` only when it is strictly longer. -/
def refreshQuestions (e : EngineState) : Option (List ServerQuestion) → EngineState
  | some updated =>
      if e.questions.length < updated.length then { e with questions := updated } else e
  | none => e

/-- `QuizEngine.nextQuestion`: bumps `currentIndex`, fires game over when the
session limit is reached, refreshes the pool when fewer than 3 unused
questions remain, then delegates to `getCurrentQuestion`. -/
def nextQuestion (e : EngineState) (fetched : Option (List ServerQuestion)) (r : Nat) :
    Option ClientQuestion × EngineState :=
  let e0 := { e with currentIndex := e.currentIndex + 1 }
  if e0.sessionQuestionLimit ≤ e0.questionsAnswered then
    (none, { e0 with allQuestionsCompleted := true })
  else
    let e1 := if (availableQuestions e0).length < 3 then refreshQuestions e0 fetched else e0
    getCurrentQuestion e1 r

/-- The outcome of one reveal: the `RevealResultPayload` sent to clients, the
game-over reason when the round terminated the game, and the engine state
after the scheduled post-reveal continuation has run. -/
structure RevealOutcome where
  result : RevealResultPayload
  gameOver : Option GameOverReason
  state : EngineState
deriving DecidableEq, Repr

/-- `QuizEngine.evaluateSelections` together with its scheduled post-reveal
continuation (the `setTimeout` body).  Returns `none` when no current
question exists (the early-return branch).  `fetched` and `r` feed the inner
`nextQuestion` call exactly as above. -/
def evaluateSelections (e : EngineState) (fetched : Option (List ServerQuestion)) (r : Nat) :
    Option RevealOutcome :=
  match findCurrentQuestion e with
  | none => none
  | some currentQuestion =>
      let correctOrbId := currentQuestion.correct
      let selections := e.playerSelections
      let anyCorrect := selections.any (fun s => s.orbId == correctOrbId)
      let points := if anyCorrect then 100 else 0
      let e1 :=
        if anyCorrect then
          { e with
              questionsAnswered := e.questionsAnswered + 1
              sessionQuestionsAnswered := e.sessionQuestionsAnswered + 1 }
        else e
      let result : RevealResultPayload := ⟨correctOrbId, selections, anyCorrect, points⟩
      if anyCorrect = false then
        some ⟨result, some GameOverReason.all_wrong,
          { e1 with
              allQuestionsCompleted := false
              lastGameOverReason := GameOverReason.all_wrong }⟩
      else if e1.sessionQuestionLimit ≤ e1.questionsAnswered then
        some ⟨result, some GameOverReason.completed,
          { e1 with
              allQuestionsCompleted := true
              lastGameOverReason := GameOverReason.completed }⟩
      else
        let e2 := { e1 with questionNumberForUI := e1.questionNumberForUI + 1 }
        match nextQuestion e2 fetched r with
        | (none, e3) =>
            some ⟨result, some GameOverReason.completed,
              { e3 with
                  allQuestionsCompleted := true
                  lastGameOverReason := GameOverReason.completed }⟩
        | (some _, e3) => some ⟨result, none, beginPhase e3 QuestionPhase.analysis⟩

/-- `QuizEngine.advancePhase`, case `'selection'`: enter the reveal phase and
evaluate the recorded selections. -/
def advanceFromSelection (e : EngineState) (fetched : Option (List ServerQuestion)) (r : Nat) :
    Option RevealOutcome :=
  evaluateSelections (beginPhase e QuestionPhase.reveal) fetched r

/-- The score award performed by the event handlers' reveal callback
(`eventHandlers`, START_GAME handler): `if (result.anyCorrect)
room.teamManager.addScore(result.points)`. -/
def onRevealScoreDelta (result : RevealResultPayload) : Nat :=
  if result.anyCorrect then result.points else 0

/-- One row of the `teams` table (`teamRepository.ts`); `total_score` and
`games_played` default to 0 on insert. -/
structure TeamRow where
  id : Nat
  name : String
  total_score : Nat
  games_played : Nat
deriving DecidableEq, Repr

/-- One row of the `game_sessions` table (`teamRepository.ts`,
`saveGameSession`). -/
structure GameSessionRow where
  room_id : String
  team_id : Nat
  score : Nat
  questions_answered : Nat
deriving DecidableEq, Repr

/-- The persistent store behind `teamRepository.ts` (the `teams` and
`game_sessions` tables, rows in insertion order). -/
structure TeamStore where
  teams : List TeamRow
  sessions : List GameSessionRow
deriving DecidableEq, Repr

/-- `teamRepository.findTeamByName`: id of the first team with this name. -/
def findTeamByName (db : TeamStore) (name : String) : Option Nat :=
  (db.teams.find? (fun t => t.name == name)).map (fun t => t.id)

/-- `teamRepository.createTeam`: inserts a fresh row (score 0, 0 games) and
returns its rowid, modelled as one more than the largest existing id. -/
def createTeam (db : TeamStore) (name : String) : Nat × TeamStore :=
  let newId := (db.teams.map (fun t => t.id)).foldr Nat.max 0 + 1
  (newId,
   { db with teams :=
       db.teams ++ [{ id := newId, name := name, total_score := 0, games_played := 0 }] })

/-- `teamRepository.getOrCreateTeam`. -/
def getOrCreateTeam (db : TeamStore) (name : String) : Nat × TeamStore :=
  match findTeamByName db name with
  | some existing => (existing, db)
  | none => createTeam db name

/-- The `SELECT total_score FROM teams WHERE id = ?` read used by
`updateTeamScore` (first matching row). -/
def lookupTeamScore (db : TeamStore) (teamId : Nat) : Option Nat :=
  (db.teams.find? (fun t => t.id == teamId)).map (fun t => t.total_score)

/-- `teamRepository.updateTeamScore`: replace-if-higher.  When the new score
is strictly greater than the stored one the row gets the new score and one
more game played; otherwise only `games_played` is incremented. -/
def updateTeamScore (db : TeamStore) (teamId : Nat) (newScore : Nat) : TeamStore :=
  let currentScore := (lookupTeamScore db teamId).getD 0
  if currentScore < newScore then
    { db with teams := db.teams.map (fun t =>
        if t.id == teamId then
          { t with total_score := newScore, games_played := t.games_played + 1 }
        else t) }
  else
    { db with teams := db.teams.map (fun t =>
        if t.id == teamId then { t with games_played := t.games_played + 1 } else t) }

/-- `teamRepository.saveGameSession`: appends an immutable session record. -/
def saveGameSession (db : TeamStore) (roomId : String) (teamId score questionsAnswered : Nat) :
    TeamStore :=
  { db with sessions := db.sessions ++
      [{ room_id := roomId, team_id := teamId, score := score,
         questions_answered := questionsAnswered }] }

/-- The mutable fields of `TeamManager` (`TeamManager.ts`). -/
structure TeamManagerState where
  teamName : String
  teamDbId : Option Nat
  liveScore : Nat
deriving DecidableEq, Repr

/-- A freshly constructed `TeamManager`. -/
def TeamManager.initial : TeamManagerState :=
  { teamName := "", teamDbId := none, liveScore := 0 }

/-- `TeamManager.setTeamName`: stores the name and resolves-or-creates the
persisted team identity immediately. -/
def TeamManager.setTeamName (tm : TeamManagerState) (db : TeamStore) (name : String) :
    TeamManagerState × TeamStore :=
  let resolved := getOrCreateTeam db name
  ({ tm with teamName := name, teamDbId := some resolved.1 }, resolved.2)

/-- `TeamManager.addScore`. -/
def TeamManager.addScore (tm : TeamManagerState) (points : Nat) : TeamManagerState :=
  { tm with liveScore := tm.liveScore + points }

/-- `TeamManager.saveGameResult`: no-op without a resolved team id; otherwise
updates the persisted score (replace-if-higher) and appends a session row. -/
def TeamManager.saveGameResult (tm : TeamManagerState) (db : TeamStore) (roomId : String)
    (questionsAnswered : Nat) : TeamStore :=
  match tm.teamDbId with
  | none => db
  | some teamId =>
      saveGameSession (updateTeamScore db teamId tm.liveScore)
        roomId teamId tm.liveScore questionsAnswered

/-- `PlayerRole` from `shared/types.ts`: `'leader' | 'member'`. -/
inductive PlayerRole where
  | leader
  | member
deriving DecidableEq, Repr

/-- `RoomController` (`RoomManager.ts`): `id` is the transient connection id,
`clientId` the durable device id.  The raw channel handle is outside the
embedding (it is only stored, never inspected by the domain logic). -/
structure RoomController where
  id : String
  clientId : String
  role : PlayerRole
  isReady : Bool
  colorIndex : Nat
deriving DecidableEq, Repr

/-- `Room` (`RoomManager.ts`); the screen channel is represented by its id,
and the per-room `TeamManager` by its state.  The per-room `QuizEngine` is
modelled separately (`EngineState`) since no `RoomManager` operation under
verification reads it. -/
structure Room where
  roomId : String
  joinToken : String
  screenId : String
  controllers : List RoomController
  gameStarted : Bool
  team : TeamManagerState
deriving DecidableEq, Repr

/-- The `RoomManager`'s `rooms` map, as its insertion-ordered entry list. -/
abbrev Registry := List Room

/-- `CONFIG.MAX_PLAYERS_PER_ROOM` (`config.ts`). -/
def MAX_PLAYERS_PER_ROOM : Nat := 3

/-- JavaScript `Map.set` on the rooms map: replaces in place when the key
exists, otherwise appends. -/
def mapSetRoom (rs : Registry) (room : Room) : Registry :=
  if rs.any (fun r => r.roomId == room.roomId) then
    rs.map (fun r => if r.roomId == room.roomId then room else r)
  else
    rs ++ [room]

/-- `RoomManager.createRoom`, with the generated room id, join token and the
screen channel id passed in explicitly. -/
def createRoom (rs : Registry) (roomId joinToken screenId : String) : Registry :=
  mapSetRoom rs
    { roomId := roomId, joinToken := joinToken, screenId := screenId,
      controllers := [], gameStarted := false, team := TeamManager.initial }

/-- In-place update of the room stored under `roomId` (JavaScript mutates the
object returned by `Map.get`; room ids are unique map keys). -/
def updateRoomById (rs : Registry) (roomId : String) (f : Room → Room) : Registry :=
  rs.map (fun r => if r.roomId == roomId then f r else r)

/-- The re-bind performed on a reconnect join: the first controller with this
`clientId` gets the new connection id; every other field is untouched. -/
def rebindFirst : List RoomController → String → String → List RoomController
  | [], _, _ => []
  | c :: cs, clientId, channelId =>
      if c.clientId == clientId then { c with id := channelId } :: cs
      else c :: rebindFirst cs clientId channelId

/-- The splice performed by `removeController` on one room's controller list:
removes the first controller with this connection id, reporting whether it
was the leader; `none` when the id is absent. -/
def removeFromControllers (cs : List RoomController) (channelId : String) :
    Option (List RoomController × Bool) :=
  match cs with
  | [] => none
  | c :: rest =>
      if c.id == channelId then
        some (rest, c.role == PlayerRole.leader)
      else
        match removeFromControllers rest channelId with
        | none => none
        | some (rest2, wasLeader) => some (c :: rest2, wasLeader)

/-- The leader promotion in `removeController`: `controllers[0]` becomes
leader and is auto-marked ready. -/
def promoteFirst : List RoomController → List RoomController
  | [] => []
  | c :: cs => { c with role := PlayerRole.leader, isReady := true } :: cs

/-- `RoomManager.removeController`: removes a controller by connection id
from the first room containing it, promoting the next controller in join
order when the leader left and controllers remain.  Returns the updated room
(the source returns the mutated `Room` object) and the `wasLeader` flag. -/
def removeController : Registry → String → Option (Room × Bool) × Registry
  | [], _ => (none, [])
  | room :: rest, channelId =>
      match removeFromControllers room.controllers channelId with
      | some (cs, wasLeader) =>
          let cs2 := if wasLeader && !cs.isEmpty then promoteFirst cs else cs
          let room2 := { room with controllers := cs2 }
          (some (room2, wasLeader), room2 :: rest)
      | none =>
          let step := removeController rest channelId
          (step.1, room :: step.2)

/-- The result record of `RoomManager.joinRoom`. -/
structure JoinResult where
  success : Bool
  error : Option String := none
  role : Option PlayerRole := none
  colorIndex : Option Nat := none
deriving DecidableEq, Repr

/-- `RoomManager.joinRoom`.  Validation order as in the source: room lookup,
token check, reconnect-by-`clientId` (rebind, return the stored role and
colour unconditionally), otherwise clean up the joining connection id from
any room, then the full/started checks, then append the new controller
(leader iff the room is empty, `colorIndex` = current controller count,
leader auto-ready). -/
def joinRoom (rs : Registry) (roomId token channelId clientId : String) :
    JoinResult × Registry :=
  match rs.find? (fun r => r.roomId == roomId) with
  | none => ({ success := false, error := some "Room not found" }, rs)
  | some room =>
      if room.joinToken != token then
        ({ success := false, error := some "Invalid token" }, rs)
      else
        match room.controllers.find? (fun c => c.clientId == clientId) with
        | some existing =>
            let rs2 := updateRoomById rs roomId (fun r =>
              { r with controllers := rebindFirst r.controllers clientId channelId })
            ({ success := true, role := some existing.role,
               colorIndex := some existing.colorIndex }, rs2)
        | none =>
            let rs2 := (removeController rs channelId).2
            match rs2.find? (fun r => r.roomId == roomId) with
            | none => ({ success := false, error := some "Room not found" }, rs2)
            | some room2 =>
                if MAX_PLAYERS_PER_ROOM ≤ room2.controllers.length then
                  ({ success := false, error := some "Room is full (max 3 players)" }, rs2)
                else if room2.gameStarted then
                  ({ success := false, error := some "Game already in progress" }, rs2)
                else
                  let role :=
                    if room2.controllers.length == 0 then PlayerRole.leader
                    else PlayerRole.member
                  let colorIndex := room2.controllers.length
                  let controller : RoomController :=
                    { id := channelId, clientId := clientId, role := role,
                      isReady := role == PlayerRole.leader, colorIndex := colorIndex }
                  let rs3 := updateRoomById rs2 roomId (fun r =>
                    { r with controllers := r.controllers ++ [controller] })
                  ({ success := true, role := some role, colorIndex := some colorIndex }, rs3)

/-- The in-place `controller.isReady = true` on the first controller with
this `clientId`. -/
def setReadyFirst : List RoomController → String → List RoomController
  | [], _ => []
  | c :: cs, clientId =>
      if c.clientId == clientId then { c with isReady := true } :: cs
      else c :: setReadyFirst cs clientId

/-- `RoomManager.setPlayerReady`. -/
def setPlayerReady (rs : Registry) (roomId clientId : String) : Bool × Registry :=
  match rs.find? (fun r => r.roomId == roomId) with
  | none => (false, rs)
  | some room =>
      match room.controllers.find? (fun c => c.clientId == clientId) with
      | none => (false, rs)
      | some _ =>
          (true, updateRoomById rs roomId (fun r =>
            { r with controllers := setReadyFirst r.controllers clientId }))

/-- `RoomManager.canStartGame`: false for a missing or empty room, true for a
solo controller, otherwise true iff every controller is ready. -/
def canStartGame (rs : Registry) (roomId : String) : Bool :=
  match rs.find? (fun r => r.roomId == roomId) with
  | none => false
  | some room =>
      if room.controllers.length == 0 then false
      else if room.controllers.length == 1 then true
      else room.controllers.all (fun c => c.isReady)

/-- `RoomManager.startGame`: requires the caller's `clientId` to be the
room's leader and `canStartGame`; on success sets `gameStarted`. -/
def startGame (rs : Registry) (roomId clientId : String) : Bool × Registry :=
  match rs.find? (fun r => r.roomId == roomId) with
  | none => (false, rs)
  | some room =>
      match room.controllers.find? (fun c => c.clientId == clientId) with
      | none => (false, rs)
      | some controller =>
          if controller.role ≠ PlayerRole.leader then (false, rs)
          else if canStartGame rs roomId then
            (true, updateRoomById rs roomId (fun r => { r with gameStarted := true }))
          else (false, rs)

/-- `RoomManager.setTeamName`: only the leader's `clientId` may set the
name; on success delegates to `TeamManager.setTeamName` (which also touches
the team store). -/
def RoomManager.setTeamName (rs : Registry) (db : TeamStore) (roomId clientId name : String) :
    Bool × Registry × TeamStore :=
  match rs.find? (fun r => r.roomId == roomId) with
  | none => (false, rs, db)
  | some room =>
      match room.controllers.find? (fun c => c.clientId == clientId) with
      | none => (false, rs, db)
      | some controller =>
          if controller.role ≠ PlayerRole.leader then (false, rs, db)
          else
            let updated := TeamManager.setTeamName room.team db name
            (true, updateRoomById rs roomId (fun r => { r with team := updated.1 }),
             updated.2)

/-- `RoomManager.deleteRoomByScreen`: deletes the first room whose screen
channel id matches. -/
def deleteRoomByScreen : Registry → String → Registry
  | [], _ => []
  | room :: rest, channelId =>
      if room.screenId == channelId then rest
      else room :: deleteRoomByScreen rest channelId

/-- Room-registry states reachable from an empty `RoomManager` by the public
mutating operations. -/
inductive Reachable : Registry → Prop where
  | init : Reachable []
  | create {rs : Registry} (roomId joinToken screenId : String) :
      Reachable rs → Reachable (createRoom rs roomId joinToken screenId)
  | join {rs : Registry} (roomId token channelId clientId : String) :
      Reachable rs → Reachable (joinRoom rs roomId token channelId clientId).2
  | ready {rs : Registry} (roomId clientId : String) :
      Reachable rs → Reachable (setPlayerReady rs roomId clientId).2
  | start {rs : Registry} (roomId clientId : String) :
      Reachable rs → Reachable (startGame rs roomId clientId).2
  | remove {rs : Registry} (channelId : String) :
      Reachable rs → Reachable (removeController rs channelId).2
  | delScreen {rs : Registry} (channelId : String) :
      Reachable rs → Reachable (deleteRoomByScreen rs channelId)
  | team {rs : Registry} (db : TeamStore) (roomId clientId name : String) :
      Reachable rs → Reachable (RoomManager.setTeamName rs db roomId clientId name).2.1

/-! ### Sample data used by witnesses and counterexamples -/

/-- A sample server-side question whose correct option is `"B"`. -/
def sampleQ1 : ServerQuestion :=
  { id := 1, text := "Q1", code := none,
    options := [⟨"A", "one"⟩, ⟨"B", "two"⟩, ⟨"C", "three"⟩, ⟨"D", "four"⟩],
    correct := "B" }

/-- A second sample question whose correct option is `"A"`. -/
def sampleQ2 : ServerQuestion :=
  { id := 2, text := "Q2", code := none,
    options := [⟨"A", "five"⟩, ⟨"B", "six"⟩, ⟨"C", "seven"⟩, ⟨"D", "eight"⟩],
    correct := "A" }

/-- A freshly initialised engine holding the two sample questions. -/
def sampleEngine : EngineState :=
  { questions := [sampleQ1, sampleQ2], currentIndex := 0, timeLeft := 30,
    questionsAnswered := 0, sessionQuestionsAnswered := 0,
    usedQuestionTexts := [], sessionQuestionLimit := 10,
    allQuestionsCompleted := false, lastGameOverReason := GameOverReason.time,
    currentPhase := QuestionPhase.analysis, phaseTimeLeft := 0,
    playerSelections := [], questionNumberForUI := 0 }

/-- The sample engine during the selection phase of question `Q1`. -/
def sampleSelEngine : EngineState :=
  { sampleEngine with
      currentPhase := QuestionPhase.selection
      phaseTimeLeft := 7
      usedQuestionTexts := ["q1"]
      questionNumberForUI := 1 }

/-- A sample store holding one team with best score 500. -/
def sampleStore : TeamStore :=
  { teams := [{ id := 1, name := "alpha", total_score := 500, games_played := 3 }],
    sessions := [] }

/-- A sample per-room team manager bound to that team with live score 300. -/
def sampleTeamLow : TeamManagerState :=
  { teamName := "alpha", teamDbId := some 1, liveScore := 300 }

/-- The engine one correct answer short of the 10-question session cap, in
the selection phase of `Q1` with one recorded (correct) selection. -/
def exC1 : EngineState :=
  { questions := [sampleQ1], currentIndex := 0, timeLeft := 30,
    questionsAnswered := 9, sessionQuestionsAnswered := 9,
    usedQuestionTexts := ["q1"], sessionQuestionLimit := 10,
    allQuestionsCompleted := false, lastGameOverReason := GameOverReason.time,
    currentPhase := QuestionPhase.selection, phaseTimeLeft := 0,
    playerSelections := [⟨"ctrl-one", "B", 0⟩], questionNumberForUI := 10 }

/-- The sample selection-phase engine with one correct recorded selection. -/
def exC1w : EngineState :=
  { sampleSelEngine with playerSelections := [⟨"c1", "B", 0⟩] }

/-- A one-room registry whose solo room is occupied by its ready leader. -/
def sampleReg : Registry :=
  [{ roomId := "R1", joinToken := "tok", screenId := "scr",
     controllers := [{ id := "ch1", clientId := "L", role := PlayerRole.leader,
                       isReady := true, colorIndex := 0 }],
     gameStarted := false, team := TeamManager.initial }]

/-- An empty team store. -/
def exC9Db : TeamStore := { teams := [], sessions := [] }

/-- A run of question serves: each step may first refresh the pool (the
background `getSessionQuestions` result, as in `nextQuestion`) and then
serves one question via `getCurrentQuestion` with the given random draw. -/
def serveRun : EngineState → List (Option (List ServerQuestion) × Nat) →
    List ClientQuestion × EngineState
  | e, [] => ([], e)
  | e, step :: steps =>
      match getCurrentQuestion (refreshQuestions e step.1) step.2 with
      | (none, e2) => serveRun e2 steps
      | (some q, e2) =>
          let rest := serveRun e2 steps
          (q :: rest.1, rest.2)

/-- A fresh two-room registry: room `"A"` empty, room `"B"` empty. -/
def exJoinReg : Registry :=
  createRoom (createRoom [] "A" "tokA" "scrA") "B" "tokB" "scrB"

/-- How many controller slots across the whole registry carry this
connection id. -/
def countSlots (rs : Registry) (channelId : String) : Nat :=
  (rs.map (fun room => (room.controllers.filter (fun c => c.id == channelId)).length)).sum

/-- The registry after the three joins of the C10 counterexample: client
`CX` first joins room `B` over connection `K0`, then joins room `A` over
connection `K` (a fresh join that cleans up `K`, which occupies nothing),
then re-joins room `B` over the same connection `K` (a reconnect join that
only rebinds `B`'s slot). -/
def exC10Reg : Registry :=
  (joinRoom
    (joinRoom (joinRoom exJoinReg "B" "tokB" "K0" "CX").2 "A" "tokA" "K" "CX").2
    "B" "tokB" "K" "CX").2

/-- The empty room `"A"` as created in `exJoinReg`. -/
def exRoomA : Room :=
  { roomId := "A", joinToken := "tokA", screenId := "scrA",
    controllers := [], gameStarted := false, team := TeamManager.initial }

/-- The shape every controller list maintained by `RoomManager` has: either
empty, or a leader at the head followed by members only. -/
def leaderInv : List RoomController → Prop
  | [] => True
  | c :: cs => c.role = PlayerRole.leader ∧ ∀ c2 ∈ cs, c2.role = PlayerRole.member

/-- The registry invariant: room ids are unique (they are map keys) and
every room's controller list has the leader-first shape. -/
def RegInv (rs : Registry) : Prop :=
  (rs.map (fun r => r.roomId)).Nodup ∧ ∀ room ∈ rs, leaderInv room.controllers

/-- The result of the solo leader `CX` joining the empty room `"A"` over
connection `K`. -/
def exRoomAJoined : Room :=
  { roomId := "A", joinToken := "tokA", screenId := "scrA",
    controllers := [{ id := "K", clientId := "CX", role := PlayerRole.leader,
                      isReady := true, colorIndex := 0 }],
    gameStarted := false, team := TeamManager.initial }

/-! ### C2 — the client-facing projection never carries the correct answer -/

/-- C2: every question value produced for clients by `getCurrentQuestion` or
`getLastSelectedQuestion` is exactly the `{id, text, code, options}`
projection of a pool question, and that projection is independent of the
server-side `correct` field (so the `correct` answer is never part of a
client-facing question), in the single-player and multiplayer paths alike. -/
theorem C2_client_question_strips_correct (e : EngineState) (r : Nat) :
    (∀ q e2, getCurrentQuestion e r = (some q, e2) →
        ∃ sq, sq ∈ e.questions ∧ q = clientProjection sq) ∧
    (∀ q, getLastSelectedQuestion e = some q →
        ∃ sq, sq ∈ e.questions ∧ q = clientProjection sq) ∧
    (∀ sq c, clientProjection { sq with correct := c } = clientProjection sq) := by
  refine ⟨?_, ?_, fun sq c => rfl⟩
  · intro q e2 h
    simp only [getCurrentQuestion] at h
    split at h
    · cases h
    · rename_i sq hsq
      cases h
      exact ⟨sq, (List.mem_filter.mp (List.getElem?_mem hsq)).1, rfl⟩
  · intro q h
    simp only [getLastSelectedQuestion, Option.map_eq_some'] at h
    obtain ⟨sq, hfind, rfl⟩ := h
    simp only [findCurrentQuestion] at hfind
    split at hfind
    · cases hfind
    · exact ⟨sq, List.mem_of_find?_eq_some hfind, rfl⟩

/-- Witness for C2 at the sample engine: the first question served to the
client with random draw 0 is the projection of a pool question. -/
theorem C2_witness :
    ∃ sq, sq ∈ sampleEngine.questions ∧
      ClientQuestion.mk 1 "Q1" none sampleQ1.options = clientProjection sq :=
  (C2_client_question_strips_correct sampleEngine 0).1
    (ClientQuestion.mk 1 "Q1" none sampleQ1.options)
    { sampleEngine with usedQuestionTexts := ["q1"] } (by decide)

/-! ### C4 — recordSelection accepts exactly one selection per controller
per selection phase -/

/-- C4: `recordSelection` succeeds exactly when the phase is `selection` and
the controller has not yet selected; on success it appends the selection and
changes nothing else, and any second submission from the same controller is
rejected without overwriting the first; on failure the state is unchanged. -/
theorem C4_recordSelection_spec (e : EngineState) (controllerId orbId : String)
    (colorIndex : Nat) :
    ((recordSelection e controllerId orbId colorIndex).1 = true ↔
       e.currentPhase = QuestionPhase.selection ∧
         selFind? e.playerSelections controllerId = none) ∧
    ((recordSelection e controllerId orbId colorIndex).1 = true →
       (recordSelection e controllerId orbId colorIndex).2 =
         { e with playerSelections :=
             e.playerSelections ++ [⟨controllerId, orbId, colorIndex⟩] } ∧
       ∀ orbId2 colorIndex2,
         recordSelection (recordSelection e controllerId orbId colorIndex).2
             controllerId orbId2 colorIndex2 =
           (false, (recordSelection e controllerId orbId colorIndex).2)) ∧
    ((recordSelection e controllerId orbId colorIndex).1 = false →
       (recordSelection e controllerId orbId colorIndex).2 = e) := by
  have hself : ∀ (l : List PlayerSelectionPayload) (s : PlayerSelectionPayload),
      s.controllerId = controllerId → (selFind? (l ++ [s]) controllerId).isSome = true := by
    intro l s hs
    induction l with
    | nil => simp [selFind?, List.find?, hs]
    | cons c cs ih =>
        by_cases hc : (c.controllerId == controllerId) = true
        · simp [selFind?, List.find?, hc]
        · simpa [selFind?, List.find?, hc] using ih
  by_cases hphase : e.currentPhase = QuestionPhase.selection
  · by_cases hsel : (selFind? e.playerSelections controllerId).isSome = true
    · have hres : recordSelection e controllerId orbId colorIndex = (false, e) := by
        simp [recordSelection, hphase, hsel]
      refine ⟨?_, ?_, ?_⟩
      · rw [hres]
        simp only [Bool.false_eq_true, false_iff, not_and]
        intro _ hnone
        rw [hnone] at hsel
        simp at hsel
      · rw [hres]; intro h; cases h
      · rw [hres]; intro _; rfl
    · refine ⟨?_, ?_, ?_⟩
      · simp [recordSelection, hphase, hsel, Option.not_isSome_iff_eq_none.mp]
      · intro _
        refine ⟨by simp [recordSelection, hphase, hsel], ?_⟩
        intro orbId2 colorIndex2
        have hstate : (recordSelection e controllerId orbId colorIndex).2 =
            { e with playerSelections :=
                e.playerSelections ++ [⟨controllerId, orbId, colorIndex⟩] } := by
          simp [recordSelection, hphase, hsel]
        rw [hstate]
        simp [recordSelection, hphase, hself e.playerSelections ⟨controllerId, orbId, colorIndex⟩ rfl]
      · intro hfalse
        simp [recordSelection, hphase, hsel] at hfalse
  · refine ⟨?_, ?_, ?_⟩ <;> simp [recordSelection, hphase]

/-- Witness for C4: in the sample selection phase, controller `c1`'s first
selection is recorded, and its second submission is rejected and does not
overwrite the first. -/
theorem C4_witness :
    recordSelection (recordSelection sampleSelEngine "c1" "B" 0).2 "c1" "C" 1 =
      (false, (recordSelection sampleSelEngine "c1" "B" 0).2) :=
  ((C4_recordSelection_spec sampleSelEngine "c1" "B" 0).2.1 (by decide)).2 "C" 1

/-! ### C8 — the persisted team score is a high-water mark -/

/-- `find?` over a row update that touches only rows with the given id and
preserves ids. -/
theorem find?_update_teams (ts : List TeamRow) (teamId : Nat) (f : TeamRow → TeamRow)
    (hf : ∀ t, (f t).id = t.id) :
    (ts.map (fun t => if t.id == teamId then f t else t)).find? (fun t => t.id == teamId)
      = (ts.find? (fun t => t.id == teamId)).map f := by
  induction ts with
  | nil => rfl
  | cons t ts ih =>
      simp only [List.map_cons]
      by_cases h : (t.id == teamId) = true
      · have hfid : ((f t).id == teamId) = true := by rw [hf]; exact h
        rw [if_pos h]
        simp only [List.find?, hfid, h]
        rfl
      · have hfid : (t.id == teamId) = false := by simpa using h
        rw [if_neg h]
        simp only [List.find?, hfid]
        exact ih

/-- C8: `saveGameResult` never decreases the persisted best score — with a
resolved team id whose row stores `prevScore`, the persisted `total_score`
afterwards is exactly `max prevScore liveScore`, which is at least
`prevScore`. -/
theorem C8_saveGameResult_high_water (tm : TeamManagerState) (db : TeamStore)
    (roomId : String) (questionsAnswered teamId prevScore : Nat)
    (hid : tm.teamDbId = some teamId)
    (hprev : lookupTeamScore db teamId = some prevScore) :
    lookupTeamScore (TeamManager.saveGameResult tm db roomId questionsAnswered) teamId
        = some (max prevScore tm.liveScore) ∧
      prevScore ≤ max prevScore tm.liveScore := by
  refine ⟨?_, le_max_left _ _⟩
  obtain ⟨row, hrow, hscore⟩ : ∃ row, db.teams.find? (fun t => t.id == teamId) = some row ∧
      row.total_score = prevScore := by
    simp only [lookupTeamScore, Option.map_eq_some'] at hprev
    obtain ⟨row, h1, h2⟩ := hprev
    exact ⟨row, h1, h2⟩
  simp only [TeamManager.saveGameResult, hid, saveGameSession, updateTeamScore, hprev,
    Option.getD_some]
  by_cases hlt : prevScore < tm.liveScore
  · rw [if_pos hlt, max_eq_right (Nat.le_of_lt hlt)]
    simp only [lookupTeamScore]
    rw [find?_update_teams db.teams teamId
        (fun t => { t with total_score := tm.liveScore, games_played := t.games_played + 1 })
        (fun t => rfl), hrow]
    rfl
  · rw [if_neg hlt, max_eq_left (Nat.le_of_not_lt hlt)]
    simp only [lookupTeamScore]
    rw [find?_update_teams db.teams teamId
        (fun t => { t with games_played := t.games_played + 1 })
        (fun t => rfl), hrow]
    simp [hscore]

/-- Witness for C8: saving a live score of 300 over a persisted best of 500
keeps the persisted score at 500 (= max 500 300). -/
theorem C8_witness :
    lookupTeamScore (TeamManager.saveGameResult sampleTeamLow sampleStore "R1" 3) 1
        = some (max 500 300) ∧ 500 ≤ max 500 300 :=
  C8_saveGameResult_high_water sampleTeamLow sampleStore "R1" 3 1 500 rfl (by decide)

/-! ### C1 — reveal-phase arbitration -/

/-- C1 (amended): entering the reveal phase and evaluating selections, with a
current question `q`: if some recorded selection hits `q.correct`, the reveal
reports `anyCorrect` and the handler awards exactly 100 points (one shared
award, independent of how many selections were correct) and the game does not
end with reason `all_wrong` that round — though it may still end with reason
`completed` when the session question cap or pool exhaustion is reached; if
no recorded selection matches (including zero selections), no points are
awarded and the game ends with reason `all_wrong`. -/
theorem C1_reveal_arbitration (e : EngineState) (fetched : Option (List ServerQuestion))
    (r : Nat) (q : ServerQuestion)
    (hq : findCurrentQuestion e = some q) :
    ∃ out, advanceFromSelection e fetched r = some out ∧
      out.result.selections = e.playerSelections ∧
      ((∃ s ∈ e.playerSelections, s.orbId = q.correct) →
          out.result.anyCorrect = true ∧
          onRevealScoreDelta out.result = 100 ∧
          out.gameOver ≠ some GameOverReason.all_wrong) ∧
      ((∀ s ∈ e.playerSelections, s.orbId ≠ q.correct) →
          out.result.anyCorrect = false ∧
          onRevealScoreDelta out.result = 0 ∧
          out.gameOver = some GameOverReason.all_wrong ∧
          out.state.lastGameOverReason = GameOverReason.all_wrong) := by
  have hq2 : findCurrentQuestion (beginPhase e QuestionPhase.reveal) = some q := hq
  have hsel : (beginPhase e QuestionPhase.reveal).playerSelections = e.playerSelections := by
    simp [beginPhase]
  by_cases hb : e.playerSelections.any (fun s => s.orbId == q.correct) = true
  · have hcontra : (∀ s ∈ e.playerSelections, s.orbId ≠ q.correct) → False := by
      intro hall
      obtain ⟨s, hsmem, hsorb⟩ := List.any_eq_true.mp hb
      exact hall s hsmem (by simpa using hsorb)
    simp only [advanceFromSelection, evaluateSelections, hq2, hsel, hb,
      Bool.true_eq_false, if_false, ite_false, eq_self_iff_true, if_true, ite_true]
    repeat' split
    all_goals
      exact ⟨_, rfl, rfl, fun _ => ⟨rfl, rfl, by simp⟩, fun hall => (hcontra hall).elim⟩
  · have hb2 : e.playerSelections.any (fun s => s.orbId == q.correct) = false := by
      simpa using hb
    have hpos : (∃ s ∈ e.playerSelections, s.orbId = q.correct) → False := by
      intro ⟨s, hsmem, hsorb⟩
      rw [List.any_eq_false] at hb2
      exact hb2 s hsmem (by simpa using hsorb)
    simp only [advanceFromSelection, evaluateSelections, hq2, hsel, hb2]
    exact ⟨_, rfl, rfl, fun hex => (hpos hex).elim, fun _ => ⟨rfl, rfl, rfl, rfl⟩⟩

/-- Counterexample to C1 as stated: with a correct selection on the round
that reaches the session question cap, the reveal awards 100 points but the
game nevertheless ends that round (with reason `completed`), so "the game
does not end that round" is false. -/
theorem C1_counterexample :
    (advanceFromSelection exC1 none 0).map
        (fun out => (out.result.anyCorrect, onRevealScoreDelta out.result, out.gameOver))
      = some (true, 100, some GameOverReason.completed) := by decide

/-- Witness for C1 at a concrete mid-session state. -/
theorem C1_witness :
    ∃ out, advanceFromSelection exC1w none 0 = some out ∧
      out.result.selections = exC1w.playerSelections ∧
      ((∃ s ∈ exC1w.playerSelections, s.orbId = sampleQ1.correct) →
          out.result.anyCorrect = true ∧
          onRevealScoreDelta out.result = 100 ∧
          out.gameOver ≠ some GameOverReason.all_wrong) ∧
      ((∀ s ∈ exC1w.playerSelections, s.orbId ≠ sampleQ1.correct) →
          out.result.anyCorrect = false ∧
          onRevealScoreDelta out.result = 0 ∧
          out.gameOver = some GameOverReason.all_wrong ∧
          out.state.lastGameOverReason = GameOverReason.all_wrong) :=
  C1_reveal_arbitration exC1w none 0 sampleQ1 (by decide)

/-! ### C6 — startGame succeeds exactly for the leader of a startable room -/

/-- Characterisation of `canStartGame`: true iff the room exists, has at
least one controller, and either is a solo room (regardless of the solo
controller's ready flag) or every controller is ready. -/
theorem canStartGame_iff (rs : Registry) (roomId : String) :
    canStartGame rs roomId = true ↔
      ∃ room, rs.find? (fun r => r.roomId == roomId) = some room ∧
        room.controllers ≠ [] ∧
        (room.controllers.length = 1 ∨ ∀ c ∈ room.controllers, c.isReady = true) := by
  unfold canStartGame
  cases hroom : rs.find? (fun r => r.roomId == roomId) with
  | none => exact Iff.intro (fun h => (Bool.false_ne_true h).elim) (fun ⟨room, hfind, h⟩ => nomatch hfind)
  | some room =>
      simp only [Option.some.injEq]
      constructor
      · intro h
        by_cases h0 : (room.controllers.length == 0) = true
        · rw [if_pos h0] at h; cases h
        · rw [if_neg h0] at h
          have hne : room.controllers ≠ [] := by
            intro hnil
            apply h0
            rw [hnil]
            rfl
          by_cases h1 : (room.controllers.length == 1) = true
          · exact ⟨room, rfl, hne, Or.inl (by simpa using h1)⟩
          · rw [if_neg h1] at h
            exact ⟨room, rfl, hne, Or.inr (fun c hc => List.all_eq_true.mp h c hc)⟩
      · rintro ⟨room2, heq, hne, hcond⟩
        cases heq
        have h0 : ¬ ((room.controllers.length == 0) = true) := by
          intro h0
          exact hne (List.length_eq_zero.mp (by simpa using h0))
        rw [if_neg h0]
        cases hcond with
        | inl h1 => rw [if_pos (by simp [h1])]
        | inr hall =>
            by_cases h1 : (room.controllers.length == 1) = true
            · rw [if_pos h1]
            · rw [if_neg h1]
              exact List.all_eq_true.mpr (fun c hc => hall c hc)

/-- C6: `startGame` returns true and marks the room started iff the given
`clientId` resolves to the room's leader and the room can start (nonempty,
and solo — regardless of the solo controller's ready flag — or all ready);
on any violated precondition it returns false and leaves the registry
unchanged (it is a total function, so it never throws). -/
theorem C6_startGame_spec (rs : Registry) (roomId clientId : String) :
    ((startGame rs roomId clientId).1 = true ↔
      ∃ room, rs.find? (fun r => r.roomId == roomId) = some room ∧
        (∃ c, room.controllers.find? (fun c2 => c2.clientId == clientId) = some c ∧
           c.role = PlayerRole.leader) ∧
        room.controllers ≠ [] ∧
        (room.controllers.length = 1 ∨ ∀ c ∈ room.controllers, c.isReady = true)) ∧
    ((startGame rs roomId clientId).1 = true →
      (startGame rs roomId clientId).2 =
        updateRoomById rs roomId (fun r => { r with gameStarted := true })) ∧
    ((startGame rs roomId clientId).1 = false → (startGame rs roomId clientId).2 = rs) := by
  cases hroom : rs.find? (fun r => r.roomId == roomId) with
  | none =>
      have hred : startGame rs roomId clientId = (false, rs) := by
        simp only [startGame, hroom]
      rw [hred]
      refine ⟨?_, fun h => (Bool.false_ne_true h).elim, fun _ => rfl⟩
      simp only [Bool.false_eq_true, false_iff]
      rintro ⟨room, hfind, -⟩
      cases hfind
  | some room =>
      cases hctrl : room.controllers.find? (fun c2 => c2.clientId == clientId) with
      | none =>
          have hred : startGame rs roomId clientId = (false, rs) := by
            simp only [startGame, hroom, hctrl]
          rw [hred]
          refine ⟨?_, fun h => (Bool.false_ne_true h).elim, fun _ => rfl⟩
          simp only [Bool.false_eq_true, false_iff]
          rintro ⟨room2, hfind2, ⟨c, hc, -⟩, -⟩
          cases hfind2
          rw [hctrl] at hc
          cases hc
      | some controller =>
          by_cases hrole : controller.role = PlayerRole.leader
          · by_cases hcan : canStartGame rs roomId = true
            · have hred : startGame rs roomId clientId =
                  (true, updateRoomById rs roomId (fun r => { r with gameStarted := true })) := by
                simp only [startGame, hroom, hctrl]
                rw [if_neg (by simp [hrole]), if_pos hcan]
              rw [hred]
              refine ⟨?_, fun _ => rfl, fun h => (Bool.true_eq_false ▸ h).elim⟩
              simp only [true_iff]
              obtain ⟨room2, hfind2, hne, hcond⟩ := (canStartGame_iff rs roomId).mp hcan
              rw [hroom] at hfind2
              cases hfind2
              exact ⟨room, rfl, ⟨controller, hctrl, hrole⟩, hne, hcond⟩
            · have hred : startGame rs roomId clientId = (false, rs) := by
                simp only [startGame, hroom, hctrl]
                rw [if_neg (by simp [hrole]), if_neg hcan]
              rw [hred]
              refine ⟨?_, fun h => (Bool.false_ne_true h).elim, fun _ => rfl⟩
              simp only [Bool.false_eq_true, false_iff]
              rintro ⟨room2, hfind2, -, hne, hcond⟩
              cases hfind2
              exact hcan ((canStartGame_iff rs roomId).mpr ⟨room, hroom, hne, hcond⟩)
          · have hred : startGame rs roomId clientId = (false, rs) := by
              simp only [startGame, hroom, hctrl]
              rw [if_pos (by simp [hrole])]
            rw [hred]
            refine ⟨?_, fun h => (Bool.false_ne_true h).elim, fun _ => rfl⟩
            simp only [Bool.false_eq_true, false_iff]
            rintro ⟨room2, hfind2, ⟨c, hc, hcrole⟩, -, -⟩
            cases hfind2
            rw [hctrl] at hc
            cases hc
            exact hrole hcrole

/-- Witness for C6: an unknown clientId cannot start the game (registry
unchanged), while the solo leader can (gameStarted set). -/
theorem C6_witness :
    (startGame sampleReg "R1" "intruder").2 = sampleReg ∧
    (startGame sampleReg "R1" "L").2 =
      updateRoomById sampleReg "R1" (fun r => { r with gameStarted := true }) :=
  ⟨(C6_startGame_spec sampleReg "R1" "intruder").2.2 (by decide),
   (C6_startGame_spec sampleReg "R1" "L").2.1 (by decide)⟩

/-! ### C9 — team-name setting is leader-only (but not set-once and not
length-checked on the server) -/

/-- C9 (amended): `setTeamName` succeeds exactly when the given `clientId`
resolves to the room's leader, and on failure changes neither the registry
nor the team store; on success it installs the given name (resolving the
persisted team id).  The server does not enforce set-once or a minimum
length: a leader may overwrite a previously set name, and names shorter
than 2 characters are accepted (those restrictions live only in the client
lobby UI). -/
theorem C9_setTeamName_leader_only (rs : Registry) (db : TeamStore)
    (roomId clientId name : String) :
    ((RoomManager.setTeamName rs db roomId clientId name).1 = true ↔
      ∃ room c, rs.find? (fun r => r.roomId == roomId) = some room ∧
        room.controllers.find? (fun c2 => c2.clientId == clientId) = some c ∧
        c.role = PlayerRole.leader) ∧
    ((RoomManager.setTeamName rs db roomId clientId name).1 = false →
      (RoomManager.setTeamName rs db roomId clientId name).2.1 = rs ∧
      (RoomManager.setTeamName rs db roomId clientId name).2.2 = db) ∧
    (∀ room, rs.find? (fun r => r.roomId == roomId) = some room →
      (RoomManager.setTeamName rs db roomId clientId name).1 = true →
      (RoomManager.setTeamName rs db roomId clientId name).2.1 =
        updateRoomById rs roomId (fun r =>
          { r with team := (TeamManager.setTeamName room.team db name).1 }) ∧
      (RoomManager.setTeamName rs db roomId clientId name).2.2 =
        (TeamManager.setTeamName room.team db name).2) := by
  cases hroom : rs.find? (fun r => r.roomId == roomId) with
  | none =>
      have hred : RoomManager.setTeamName rs db roomId clientId name = (false, rs, db) := by
        simp only [RoomManager.setTeamName, hroom]
      rw [hred]
      refine ⟨?_, fun _ => ⟨rfl, rfl⟩, ?_⟩
      · simp only [Bool.false_eq_true, false_iff]
        rintro ⟨room, c, hfind, -⟩
        cases hfind
      · intro room hfind
        cases hfind
  | some room =>
      cases hctrl : room.controllers.find? (fun c2 => c2.clientId == clientId) with
      | none =>
          have hred : RoomManager.setTeamName rs db roomId clientId name = (false, rs, db) := by
            simp only [RoomManager.setTeamName, hroom, hctrl]
          rw [hred]
          refine ⟨?_, fun _ => ⟨rfl, rfl⟩, fun room2 hfind2 h => (Bool.false_ne_true h).elim⟩
          simp only [Bool.false_eq_true, false_iff]
          rintro ⟨room2, c, hfind2, hc, -⟩
          cases hfind2
          rw [hctrl] at hc
          cases hc
      | some controller =>
          by_cases hrole : controller.role = PlayerRole.leader
          · have hred : RoomManager.setTeamName rs db roomId clientId name =
                (true,
                 updateRoomById rs roomId (fun r =>
                   { r with team := (TeamManager.setTeamName room.team db name).1 }),
                 (TeamManager.setTeamName room.team db name).2) := by
              simp only [RoomManager.setTeamName, hroom, hctrl]
              rw [if_neg (by simp [hrole])]
            rw [hred]
            refine ⟨?_, fun h => (Bool.true_eq_false ▸ h).elim, ?_⟩
            · simp only [true_iff]
              exact ⟨room, controller, rfl, hctrl, hrole⟩
            · intro room2 hfind2 _
              cases hfind2
              exact ⟨rfl, rfl⟩
          · have hred : RoomManager.setTeamName rs db roomId clientId name = (false, rs, db) := by
              simp only [RoomManager.setTeamName, hroom, hctrl]
              rw [if_pos (by simp [hrole])]
            rw [hred]
            refine ⟨?_, fun _ => ⟨rfl, rfl⟩, fun room2 hfind2 h => (Bool.false_ne_true h).elim⟩
            simp only [Bool.false_eq_true, false_iff]
            rintro ⟨room2, c, hfind2, hc, hcrole⟩
            cases hfind2
            rw [hctrl] at hc
            cases hc
            exact hrole hcrole

/-- Counterexample to C9 as stated: the leader sets the one-character name
`"a"` (accepted by the server, violating the ≥2-character part), then
overwrites it with `"bb"` (violating the set-once part). -/
theorem C9_counterexample :
    (RoomManager.setTeamName sampleReg exC9Db "R1" "L" "a").1 = true ∧
    ((RoomManager.setTeamName sampleReg exC9Db "R1" "L" "a").2.1.map
        (fun r => r.team.teamName)) = ["a"] ∧
    "a".length < 2 ∧
    ((RoomManager.setTeamName
        (RoomManager.setTeamName sampleReg exC9Db "R1" "L" "a").2.1
        (RoomManager.setTeamName sampleReg exC9Db "R1" "L" "a").2.2
        "R1" "L" "bb").1 = true) ∧
    ((RoomManager.setTeamName
        (RoomManager.setTeamName sampleReg exC9Db "R1" "L" "a").2.1
        (RoomManager.setTeamName sampleReg exC9Db "R1" "L" "a").2.2
        "R1" "L" "bb").2.1.map (fun r => r.team.teamName)) = ["bb"] := by decide

/-- Witness for C9: a clientId that is not in the room cannot set the team
name; registry and store are unchanged. -/
theorem C9_witness :
    (RoomManager.setTeamName sampleReg exC9Db "R1" "M" "alpha").2.1 = sampleReg ∧
    (RoomManager.setTeamName sampleReg exC9Db "R1" "M" "alpha").2.2 = exC9Db :=
  (C9_setTeamName_leader_only sampleReg exC9Db "R1" "M" "alpha").2.1 (by decide)

/-! ### C7 — a served question text never repeats within a session run -/

/-- Refreshing the pool never touches the used-text set. -/
theorem refreshQuestions_used (e : EngineState) (f : Option (List ServerQuestion)) :
    (refreshQuestions e f).usedQuestionTexts = e.usedQuestionTexts := by
  cases f with
  | none => rfl
  | some updated =>
      simp only [refreshQuestions]
      split <;> rfl

/-- What one `getCurrentQuestion` call does to the used-text set: a served
question's normalised text was not yet used and becomes used; a `none`
result leaves the state unchanged. -/
theorem getCurrentQuestion_used (e : EngineState) (r : Nat) :
    (∀ q e2, getCurrentQuestion e r = (some q, e2) →
       ¬ normalizeText q.text ∈ e.usedQuestionTexts ∧
       e2.usedQuestionTexts = e.usedQuestionTexts ++ [normalizeText q.text]) ∧
    (∀ e2, getCurrentQuestion e r = (none, e2) → e2 = e) := by
  constructor
  · intro q e2 h
    simp only [getCurrentQuestion] at h
    split at h
    · cases h
    · rename_i sq hsq
      cases h
      have hmem := List.getElem?_mem hsq
      have hpred := (List.mem_filter.mp hmem).2
      have hcont : e.usedQuestionTexts.contains (normalizeText sq.text) = false := by
        simpa using hpred
      constructor
      · intro hmem2
        simp only [clientProjection] at hmem2
        have hc2 : e.usedQuestionTexts.contains (normalizeText sq.text) = true :=
          List.elem_iff.mpr hmem2
        rw [hc2] at hcont
        cases hcont
      · simp only [clientProjection, setAdd, hcont, Bool.false_eq_true, if_false, ite_false]
  · intro e2 h
    simp only [getCurrentQuestion] at h
    split at h
    · cases h; rfl
    · cases h

/-- Along any run, every served text is fresh with respect to the starting
used-text set, and the served texts are pairwise distinct. -/
theorem serveRun_fresh (steps : List (Option (List ServerQuestion) × Nat)) :
    ∀ e : EngineState,
      (∀ q ∈ (serveRun e steps).1, ¬ normalizeText q.text ∈ e.usedQuestionTexts) ∧
      List.Pairwise (fun q1 q2 => normalizeText q1.text ≠ normalizeText q2.text)
        (serveRun e steps).1 := by
  induction steps with
  | nil => exact fun e => ⟨by simp [serveRun], by simp [serveRun]⟩
  | cons step steps ih =>
      intro e
      cases hq : getCurrentQuestion (refreshQuestions e step.1) step.2 with
      | mk q? e2 =>
          cases q? with
          | none =>
              have he2 : e2 = refreshQuestions e step.1 :=
                (getCurrentQuestion_used _ step.2).2 e2 hq
              have hrun : serveRun e (step :: steps) = serveRun e2 steps := by
                simp only [serveRun, hq]
              rw [hrun]
              refine ⟨fun q hqmem hmem => ?_, (ih e2).2⟩
              have := (ih e2).1 q hqmem
              rw [he2, refreshQuestions_used] at this
              exact this hmem
          | some q0 =>
              obtain ⟨hfresh0, hused2⟩ := (getCurrentQuestion_used _ step.2).1 q0 e2 hq
              rw [refreshQuestions_used] at hfresh0 hused2
              have hrun : serveRun e (step :: steps) =
                  (q0 :: (serveRun e2 steps).1, (serveRun e2 steps).2) := by
                simp only [serveRun, hq]
              rw [hrun]
              have hrest := ih e2
              constructor
              · intro q hqmem hmem
                simp only [List.mem_cons] at hqmem
                cases hqmem with
                | inl hq0 => exact hfresh0 (hq0 ▸ hmem)
                | inr hrestmem =>
                    have hnot := hrest.1 q hrestmem
                    rw [hused2] at hnot
                    exact hnot (List.mem_append_left _ hmem)
              · refine List.Pairwise.cons ?_ hrest.2
                intro q hqmem
                have hnot := hrest.1 q hqmem
                rw [hused2] at hnot
                intro heq
                exact hnot (List.mem_append_right _ (by simp [heq]))

/-- C7: within one run (no `reset`), the normalised texts of the questions
returned by `getCurrentQuestion` are pairwise distinct (even across
background pool refreshes); `reset` clears the used-text set; and after a
reset any question still in the pool — in particular one already served —
can be served again. -/
theorem C7_no_text_repetition :
    (∀ (e : EngineState) (steps : List (Option (List ServerQuestion) × Nat)),
        List.Pairwise (fun q1 q2 => normalizeText q1.text ≠ normalizeText q2.text)
          (serveRun e steps).1) ∧
    (∀ (e : EngineState) (shuffled : List ServerQuestion),
        (reset e shuffled).usedQuestionTexts = []) ∧
    (∀ (e : EngineState) (shuffled : List ServerQuestion) (sq : ServerQuestion),
        sq ∈ shuffled →
        ∃ r q e2, getCurrentQuestion (reset e shuffled) r = (some q, e2) ∧
          normalizeText q.text = normalizeText sq.text) := by
  refine ⟨fun e steps => (serveRun_fresh steps e).2, fun e shuffled => rfl, ?_⟩
  intro e shuffled sq hsq
  have havail : availableQuestions (reset e shuffled) = shuffled := by
    apply List.filter_eq_self.mpr
    intro a _
    rfl
  obtain ⟨i, hi⟩ := List.mem_iff_getElem?.mp hsq
  have hlt : i < shuffled.length := by
    by_contra hge
    rw [List.getElem?_eq_none (Nat.le_of_not_lt hge)] at hi
    cases hi
  have h1 : getCurrentQuestion (reset e shuffled) i =
      (some (clientProjection sq), (getCurrentQuestion (reset e shuffled) i).2) := by
    have hfst : (getCurrentQuestion (reset e shuffled) i).1 = some (clientProjection sq) := by
      simp only [getCurrentQuestion, havail, Nat.mod_eq_of_lt hlt, hi]
    exact Prod.ext hfst rfl
  exact ⟨i, clientProjection sq, (getCurrentQuestion (reset e shuffled) i).2, h1, rfl⟩

/-- Witness for C7: in a freshly reset engine holding `sampleQ1`, that
question can be served. -/
theorem C7_witness :
    ∃ r q e2, getCurrentQuestion (reset sampleEngine [sampleQ1]) r = (some q, e2) ∧
      normalizeText q.text = normalizeText sampleQ1.text :=
  C7_no_text_repetition.2.2 sampleEngine [sampleQ1] sampleQ1 (by decide)

/-! ### Helper lemmas about controller removal and rebinding -/

/-- If no controller in the list carries the connection id, the splice finds
nothing. -/
theorem removeFromControllers_none (cs : List RoomController) (channelId : String)
    (h : ∀ c ∈ cs, (c.id == channelId) = false) :
    removeFromControllers cs channelId = none := by
  induction cs with
  | nil => rfl
  | cons c rest ih =>
      have hred := ih (fun x hx => h x (List.mem_cons_of_mem c hx))
      simp only [removeFromControllers, hred]
      rw [if_neg (by simp [h c (List.mem_cons_self c rest)])]

/-- If no controller in any room carries the connection id,
`removeController` is the identity and reports nothing removed. -/
theorem removeController_not_found (rs : Registry) (channelId : String)
    (h : ∀ room ∈ rs, ∀ c ∈ room.controllers, (c.id == channelId) = false) :
    removeController rs channelId = (none, rs) := by
  induction rs with
  | nil => rfl
  | cons room rest ih =>
      have h1 := removeFromControllers_none room.controllers channelId
        (h room (List.mem_cons_self room rest))
      have h2 := ih (fun r hr => h r (List.mem_cons_of_mem room hr))
      simp only [removeController, h1, h2]

/-- Re-binding a connection id changes no field other than `id`. -/
theorem rebindFirst_fields (cs : List RoomController) (clientId channelId : String) :
    (rebindFirst cs clientId channelId).map
        (fun c => (c.clientId, c.role, c.colorIndex, c.isReady))
      = cs.map (fun c => (c.clientId, c.role, c.colorIndex, c.isReady)) := by
  induction cs with
  | nil => rfl
  | cons c rest ih =>
      simp only [rebindFirst]
      split
      · simp
      · simp only [List.map_cons, ih]

/-- Promotion changes only `role` and `isReady`: every promoted controller
corresponds to an original one with the same `clientId` and `colorIndex`. -/
theorem promoteFirst_fields (cs : List RoomController) :
    ∀ c2 ∈ promoteFirst cs, ∃ c ∈ cs, c2.clientId = c.clientId ∧ c2.colorIndex = c.colorIndex := by
  cases cs with
  | nil => intro c2 h; cases h
  | cons c rest =>
      intro c2 h
      cases List.mem_cons.mp h with
      | inl hh => exact ⟨c, List.mem_cons_self c rest, by rw [hh], by rw [hh]⟩
      | inr ht => exact ⟨c2, List.mem_cons_of_mem c ht, rfl, rfl⟩

/-- Everything surviving the splice was in the original list. -/
theorem removeFromControllers_mem (cs : List RoomController) (channelId : String) :
    ∀ cs2 w, removeFromControllers cs channelId = some (cs2, w) → ∀ x ∈ cs2, x ∈ cs := by
  induction cs with
  | nil => intro cs2 w h; cases h
  | cons c rest ih =>
      intro cs2 w h
      simp only [removeFromControllers] at h
      by_cases hc : (c.id == channelId) = true
      · rw [if_pos hc] at h
        cases h
        exact fun x hx => List.mem_cons_of_mem c hx
      · rw [if_neg hc] at h
        cases hrec : removeFromControllers rest channelId with
        | none => rw [hrec] at h; cases h
        | some p =>
            obtain ⟨rest2, w2⟩ := p
            rw [hrec] at h
            cases h
            intro x hx
            cases List.mem_cons.mp hx with
            | inl hxc => exact hxc ▸ List.mem_cons_self c rest
            | inr hxr => exact List.mem_cons_of_mem c (ih rest2 _ hrec x hxr)

/-- Removal by connection id only ever shrinks one room's controller list
(possibly promoting its head); every surviving controller keeps its
`clientId` and `colorIndex`, and every room keeps its id. -/
theorem removeController_fields (rs : Registry) (channelId : String) :
    ∀ room2 ∈ (removeController rs channelId).2,
      ∃ room ∈ rs, room2.roomId = room.roomId ∧
        ∀ c2 ∈ room2.controllers, ∃ c ∈ room.controllers,
          c2.clientId = c.clientId ∧ c2.colorIndex = c.colorIndex := by
  induction rs with
  | nil => intro room2 h; cases h
  | cons room rest ih =>
      intro room2 hmem
      cases hrm : removeFromControllers room.controllers channelId with
      | some p =>
          obtain ⟨cs2, w⟩ := p
          have hred : (removeController (room :: rest) channelId).2 =
              { room with controllers :=
                  if w && !cs2.isEmpty then promoteFirst cs2 else cs2 } :: rest := by
            simp only [removeController, hrm]
          rw [hred] at hmem
          cases List.mem_cons.mp hmem with
          | inl hh =>
              refine ⟨room, List.mem_cons_self room rest, by rw [hh], ?_⟩
              intro c2 hc2
              rw [hh] at hc2
              simp only at hc2
              have hsub := removeFromControllers_mem room.controllers channelId cs2 w hrm
              by_cases hcond : (w && !cs2.isEmpty) = true
              · rw [if_pos hcond] at hc2
                obtain ⟨c3, hc3, hcl, hco⟩ := promoteFirst_fields cs2 c2 hc2
                exact ⟨c3, hsub c3 hc3, hcl, hco⟩
              · rw [if_neg hcond] at hc2
                exact ⟨c2, hsub c2 hc2, rfl, rfl⟩
          | inr ht =>
              exact ⟨room2, List.mem_cons_of_mem room ht, rfl,
                fun c2 hc2 => ⟨c2, hc2, rfl, rfl⟩⟩
      | none =>
          have hred : (removeController (room :: rest) channelId).2 =
              room :: (removeController rest channelId).2 := by
            simp only [removeController, hrm]
          rw [hred] at hmem
          cases List.mem_cons.mp hmem with
          | inl hh =>
              exact ⟨room, List.mem_cons_self room rest, by rw [hh],
                fun c2 hc2 => ⟨c2, by rw [hh] at hc2; exact hc2, rfl, rfl⟩⟩
          | inr ht =>
              obtain ⟨room0, hroom0, hid, hfields⟩ := ih room2 ht
              exact ⟨room0, List.mem_cons_of_mem room hroom0, hid, hfields⟩

/-! ### C3 — joinRoom: reconnect semantics, fresh-join role/colour, colour
stability -/

/-- C3: (1) a join whose `clientId` already occupies a slot returns that
slot's stored role and colorIndex unconditionally (no full/started checks)
and adds no controller — every room keeps its controllers' `clientId`,
`role`, `colorIndex` and `isReady` unchanged (only the connection id is
rebound); (2) a fresh `clientId` joining a non-full, not-started room (over
a fresh connection) is appended as exactly one new controller whose role is
`leader` iff the room had zero controllers, whose `colorIndex` is the number
of controllers present at join time (its zero-based position), and who is
auto-ready iff leader; (3) controller removal never reassigns the
`colorIndex` (or `clientId`) of any remaining controller in any room. -/
theorem C3_joinRoom_spec :
    (∀ (rs : Registry) (roomId token channelId clientId : String)
        (room : Room) (existing : RoomController),
        rs.find? (fun r => r.roomId == roomId) = some room →
        room.joinToken = token →
        room.controllers.find? (fun c => c.clientId == clientId) = some existing →
        (joinRoom rs roomId token channelId clientId).1 =
          { success := true, role := some existing.role,
            colorIndex := some existing.colorIndex } ∧
        (joinRoom rs roomId token channelId clientId).2.map
            (fun r => r.controllers.map (fun c => (c.clientId, c.role, c.colorIndex, c.isReady)))
          = rs.map
            (fun r => r.controllers.map (fun c => (c.clientId, c.role, c.colorIndex, c.isReady)))) ∧
    (∀ (rs : Registry) (roomId token channelId clientId : String) (room : Room),
        rs.find? (fun r => r.roomId == roomId) = some room →
        room.joinToken = token →
        room.controllers.find? (fun c => c.clientId == clientId) = none →
        (∀ r ∈ rs, ∀ c ∈ r.controllers, (c.id == channelId) = false) →
        room.controllers.length < MAX_PLAYERS_PER_ROOM →
        room.gameStarted = false →
        ∃ newc : RoomController,
          newc.id = channelId ∧
          newc.clientId = clientId ∧
          (newc.role = PlayerRole.leader ↔ room.controllers = []) ∧
          newc.colorIndex = room.controllers.length ∧
          newc.isReady = (newc.role == PlayerRole.leader) ∧
          joinRoom rs roomId token channelId clientId =
            ({ success := true, role := some newc.role, colorIndex := some newc.colorIndex },
             updateRoomById rs roomId (fun r =>
               { r with controllers := r.controllers ++ [newc] }))) ∧
    (∀ (rs : Registry) (channelId : String),
        ∀ room2 ∈ (removeController rs channelId).2,
          ∃ room ∈ rs, room2.roomId = room.roomId ∧
            ∀ c2 ∈ room2.controllers, ∃ c ∈ room.controllers,
              c2.clientId = c.clientId ∧ c2.colorIndex = c.colorIndex) := by
  refine ⟨?_, ?_, removeController_fields⟩
  · intro rs roomId token channelId clientId room existing hroom htok hex
    have htokeq : (room.joinToken != token) = false := by simp [htok]
    have hred : joinRoom rs roomId token channelId clientId =
        ({ success := true, role := some existing.role, colorIndex := some existing.colorIndex },
         updateRoomById rs roomId (fun r =>
           { r with controllers := rebindFirst r.controllers clientId channelId })) := by
      simp only [joinRoom, hroom, htokeq, hex, Bool.false_eq_true, if_false, ite_false]
    rw [hred]
    refine ⟨rfl, ?_⟩
    simp only [updateRoomById, List.map_map]
    refine List.map_congr_left ?_
    intro r _
    simp only [Function.comp_apply]
    by_cases hr : (r.roomId == roomId) = true
    · rw [if_pos hr]
      exact rebindFirst_fields r.controllers clientId channelId
    · rw [if_neg hr]
  · intro rs roomId token channelId clientId room hroom htok hnone hchan hlen hstart
    have htokeq : (room.joinToken != token) = false := by simp [htok]
    have hrem : removeController rs channelId = (none, rs) :=
      removeController_not_found rs channelId hchan
    have hnotfull : ¬ (MAX_PLAYERS_PER_ROOM ≤ room.controllers.length) := Nat.not_le.mpr hlen
    by_cases hempty : room.controllers.length = 0
    · have hnil : room.controllers = [] := List.length_eq_zero.mp hempty
      refine ⟨{ id := channelId, clientId := clientId, role := PlayerRole.leader,
                isReady := true, colorIndex := room.controllers.length },
              rfl, rfl, by simp [hnil], rfl, rfl, ?_⟩
      simp only [joinRoom, hroom, htokeq, hnone, hrem, Bool.false_eq_true, if_false, ite_false]
      rw [if_neg hnotfull, if_neg (by simp [hstart]), if_pos (by simp [hempty])]
      rfl
    · have hbe : (room.controllers.length == 0) = false := by
        simp [hempty]
      refine ⟨{ id := channelId, clientId := clientId, role := PlayerRole.member,
                isReady := false, colorIndex := room.controllers.length },
              rfl, rfl, ?_, rfl, rfl, ?_⟩
      · constructor
        · intro h; cases h
        · intro h
          exact absurd (by rw [h]; rfl) hempty
      · simp only [joinRoom, hroom, htokeq, hnone, hrem, Bool.false_eq_true, if_false, ite_false]
        rw [if_neg hnotfull, if_neg (by simp [hstart]), if_neg (by simp [hempty])]
        rfl

/-- Witness for C3: a fresh client joining empty room `"A"` over a fresh
connection becomes its leader with colorIndex 0. -/
theorem C3_witness :
    ∃ newc : RoomController,
      newc.id = "K" ∧
      newc.clientId = "CX" ∧
      (newc.role = PlayerRole.leader ↔
        ([] : List RoomController) = []) ∧
      newc.colorIndex = (0 : Nat) ∧
      newc.isReady = (newc.role == PlayerRole.leader) ∧
      joinRoom exJoinReg "A" "tokA" "K" "CX" =
        ({ success := true, role := some newc.role, colorIndex := some newc.colorIndex },
         updateRoomById exJoinReg "A" (fun r =>
           { r with controllers := r.controllers ++ [newc] })) := by
  have h := C3_joinRoom_spec.2.1 exJoinReg "A" "tokA" "K" "CX"
    { roomId := "A", joinToken := "tokA", screenId := "scrA",
      controllers := [], gameStarted := false, team := TeamManager.initial }
    (by decide) rfl (by decide) (by decide) (by decide) rfl
  exact h

/-! ### C10 — connection-id slot occupancy across rooms -/

/-- `countSlots` on a cons cell. -/
theorem countSlots_cons (room : Room) (rest : Registry) (channelId : String) :
    countSlots (room :: rest) channelId =
      (room.controllers.filter (fun c => c.id == channelId)).length +
        countSlots rest channelId := by
  simp [countSlots]

/-- The splice removes exactly one slot with the connection id. -/
theorem removeFromControllers_count (cs : List RoomController) (channelId : String) :
    ∀ cs2 w, removeFromControllers cs channelId = some (cs2, w) →
      (cs2.filter (fun c => c.id == channelId)).length + 1 =
        (cs.filter (fun c => c.id == channelId)).length := by
  induction cs with
  | nil => intro cs2 w h; cases h
  | cons c rest ih =>
      intro cs2 w h
      simp only [removeFromControllers] at h
      by_cases hc : (c.id == channelId) = true
      · rw [if_pos hc] at h
        cases h
        simp [List.filter_cons, hc]
      · rw [if_neg hc] at h
        cases hrec : removeFromControllers rest channelId with
        | none => rw [hrec] at h; cases h
        | some p =>
            obtain ⟨rest2, w2⟩ := p
            rw [hrec] at h
            cases h
            have hrec2 := ih rest2 _ hrec
            simp only [List.filter_cons, hc, Bool.false_eq_true, if_false, ite_false]
            exact hrec2

/-- A failed splice means the connection id occurs in no slot of the list. -/
theorem removeFromControllers_eq_none (cs : List RoomController) (channelId : String)
    (h : removeFromControllers cs channelId = none) :
    (cs.filter (fun c => c.id == channelId)).length = 0 := by
  induction cs with
  | nil => rfl
  | cons c rest ih =>
      simp only [removeFromControllers] at h
      by_cases hc : (c.id == channelId) = true
      · rw [if_pos hc] at h; cases h
      · rw [if_neg hc] at h
        cases hrec : removeFromControllers rest channelId with
        | some p =>
            obtain ⟨a, b⟩ := p
            rw [hrec] at h
            cases h
        | none =>
            simp only [List.filter_cons, hc, Bool.false_eq_true, if_false, ite_false]
            exact ih hrec

/-- Promotion does not change which slots carry a given connection id. -/
theorem promoteFirst_filter_id (cs : List RoomController) (channelId : String) :
    ((promoteFirst cs).filter (fun c => c.id == channelId)).length =
      (cs.filter (fun c => c.id == channelId)).length := by
  cases cs with
  | nil => rfl
  | cons c rest =>
      simp only [promoteFirst, List.filter_cons]
      by_cases hc : (c.id == channelId) = true
      · simp [hc]
      · simp [hc]

/-- If the connection id occupied at most one slot, it occupies none after
`removeController`. -/
theorem countSlots_remove_le (rs : Registry) (channelId : String)
    (h : countSlots rs channelId ≤ 1) :
    countSlots (removeController rs channelId).2 channelId = 0 := by
  induction rs with
  | nil => rfl
  | cons room rest ih =>
      rw [countSlots_cons] at h
      cases hrm : removeFromControllers room.controllers channelId with
      | some p =>
          obtain ⟨cs2, w⟩ := p
          have hcount := removeFromControllers_count room.controllers channelId cs2 w hrm
          have hred : (removeController (room :: rest) channelId).2 =
              { room with controllers :=
                  if w && !cs2.isEmpty then promoteFirst cs2 else cs2 } :: rest := by
            simp only [removeController, hrm]
          rw [hred, countSlots_cons]
          have hroomcount :
              (((if w && !cs2.isEmpty then promoteFirst cs2 else cs2).filter
                  (fun c => c.id == channelId)).length)
                = (cs2.filter (fun c => c.id == channelId)).length := by
            split
            · exact promoteFirst_filter_id cs2 channelId
            · rfl
          have hrest0 : countSlots rest channelId = 0 := by omega
          simp only at hroomcount ⊢
          omega
      | none =>
          have hhead0 := removeFromControllers_eq_none room.controllers channelId hrm
          have hred : (removeController (room :: rest) channelId).2 =
              room :: (removeController rest channelId).2 := by
            simp only [removeController, hrm]
          rw [hred, countSlots_cons]
          have := ih (by omega)
          omega

/-- `removeController` preserves the sequence of room ids. -/
theorem removeController_roomIds (rs : Registry) (channelId : String) :
    (removeController rs channelId).2.map (fun r => r.roomId) =
      rs.map (fun r => r.roomId) := by
  induction rs with
  | nil => rfl
  | cons room rest ih =>
      cases hrm : removeFromControllers room.controllers channelId with
      | some p =>
          obtain ⟨cs2, w⟩ := p
          simp only [removeController, hrm, List.map_cons]
      | none =>
          simp only [removeController, hrm, List.map_cons, ih]

/-- `removeController` preserves how many rooms carry a given room id. -/
theorem countP_roomId_removeController (rs : Registry) (channelId roomId : String) :
    (removeController rs channelId).2.countP (fun r => r.roomId == roomId) =
      rs.countP (fun r => r.roomId == roomId) := by
  have e1 : ∀ l : Registry, l.countP (fun r => r.roomId == roomId) =
      (l.map (fun r => r.roomId)).countP (fun x => x == roomId) := by
    intro l
    rw [List.countP_map]
    rfl
  rw [e1, e1, removeController_roomIds]

/-- Appending one controller carrying the connection id to every room whose
id matches raises the slot count by the number of matching rooms. -/
theorem countSlots_update_append (rs : Registry) (roomId channelId : String)
    (newc : RoomController) (hid : (newc.id == channelId) = true) :
    countSlots (updateRoomById rs roomId (fun r =>
        { r with controllers := r.controllers ++ [newc] })) channelId =
      countSlots rs channelId + rs.countP (fun r => r.roomId == roomId) := by
  induction rs with
  | nil => rfl
  | cons room rest ih =>
      have hstep : updateRoomById (room :: rest) roomId (fun r =>
          { r with controllers := r.controllers ++ [newc] }) =
        (if (room.roomId == roomId) = true then
            { room with controllers := room.controllers ++ [newc] } else room) ::
          updateRoomById rest roomId (fun r =>
            { r with controllers := r.controllers ++ [newc] }) := by
        simp only [updateRoomById, List.map_cons]
      rw [hstep]
      by_cases hr : (room.roomId == roomId) = true
      · rw [if_pos hr, countSlots_cons, countSlots_cons]
        have happ : (((room.controllers ++ [newc]).filter
            (fun c => c.id == channelId)).length)
              = (room.controllers.filter (fun c => c.id == channelId)).length + 1 := by
          simp [List.filter_append, hid]
        simp only [List.countP_cons, hr, if_true, ite_true, happ, ih]
        omega
      · rw [if_neg hr, countSlots_cons, countSlots_cons]
        simp only [List.countP_cons, hr, if_false, ite_false, ih, Bool.false_eq_true]
        omega

/-- Counterexample to C10 as stated: after a successful `joinRoom` call (a
reconnect join), connection id `K` occupies two controller slots — one in
room `A` and one in room `B`. -/
theorem C10_counterexample :
    (joinRoom
      (joinRoom (joinRoom exJoinReg "B" "tokB" "K0" "CX").2 "A" "tokA" "K" "CX").2
      "B" "tokB" "K" "CX").1.success = true ∧
    countSlots exC10Reg "K" = 2 := by decide

/-- C10 (amended): a `joinRoom` call that takes the fresh-join path (the
target room exists with a matching token only if the `clientId` is not yet
in it) preserves "the joining connection id occupies at most one slot",
because it first removes that connection id from whatever room it occupies;
the reconnect path, by contrast, only rebinds and can leave one connection
id in two rooms (see the counterexample).  The room-id count hypothesis
states that at most one room carries the target id, which holds of every
registry the manager builds (room ids are map keys). -/
theorem C10_fresh_join_connection_unique (rs : Registry)
    (roomId token channelId clientId : String)
    (hcount : countSlots rs channelId ≤ 1)
    (huniq : rs.countP (fun r => r.roomId == roomId) ≤ 1)
    (hfresh : ∀ room, rs.find? (fun r => r.roomId == roomId) = some room →
        room.controllers.find? (fun c => c.clientId == clientId) = none) :
    countSlots (joinRoom rs roomId token channelId clientId).2 channelId ≤ 1 := by
  cases hroom : rs.find? (fun r => r.roomId == roomId) with
  | none =>
      have hred : (joinRoom rs roomId token channelId clientId).2 = rs := by
        simp only [joinRoom, hroom]
      rw [hred]
      exact hcount
  | some room =>
      by_cases htok : (room.joinToken != token) = true
      · have hred : (joinRoom rs roomId token channelId clientId).2 = rs := by
          simp only [joinRoom, hroom, htok, if_true]
        rw [hred]
        exact hcount
      · have htokf : (room.joinToken != token) = false := by
          simpa using htok
        have hnone := hfresh room hroom
        have h0 : countSlots (removeController rs channelId).2 channelId = 0 :=
          countSlots_remove_le rs channelId hcount
        cases hroom2 : (removeController rs channelId).2.find?
            (fun r => r.roomId == roomId) with
        | none =>
            have hred : (joinRoom rs roomId token channelId clientId).2 =
                (removeController rs channelId).2 := by
              simp only [joinRoom, hroom, htokf, hnone, hroom2, Bool.false_eq_true,
                if_false, ite_false]
            rw [hred, h0]
            exact Nat.zero_le 1
        | some room2 =>
            by_cases hfull : MAX_PLAYERS_PER_ROOM ≤ room2.controllers.length
            · have hred : (joinRoom rs roomId token channelId clientId).2 =
                  (removeController rs channelId).2 := by
                simp only [joinRoom, hroom, htokf, hnone, hroom2, Bool.false_eq_true,
                  if_false, ite_false]
                rw [if_pos hfull]
              rw [hred, h0]
              exact Nat.zero_le 1
            · by_cases hgs : room2.gameStarted = true
              · have hred : (joinRoom rs roomId token channelId clientId).2 =
                    (removeController rs channelId).2 := by
                  simp only [joinRoom, hroom, htokf, hnone, hroom2, Bool.false_eq_true,
                    if_false, ite_false]
                  rw [if_neg hfull, if_pos hgs]
                rw [hred, h0]
                exact Nat.zero_le 1
              · have hred : (joinRoom rs roomId token channelId clientId).2 =
                    updateRoomById (removeController rs channelId).2 roomId (fun r =>
                      { r with controllers := r.controllers ++
                          [{ id := channelId, clientId := clientId,
                             role := if (room2.controllers.length == 0) = true then
                                 PlayerRole.leader else PlayerRole.member,
                             isReady := (if (room2.controllers.length == 0) = true then
                                 PlayerRole.leader else PlayerRole.member)
                               == PlayerRole.leader,
                             colorIndex := room2.controllers.length }] }) := by
                  simp only [joinRoom, hroom, htokf, hnone, hroom2, Bool.false_eq_true,
                    if_false, ite_false]
                  rw [if_neg hfull, if_neg (by simp [hgs])]
                rw [hred, countSlots_update_append _ _ _ _ (by simp), h0,
                  countP_roomId_removeController]
                omega

/-- Witness for C10 at the concrete two-room registry: the fresh join of
connection `K` into room `A` leaves `K` occupying at most one slot. -/
theorem C10_witness :
    countSlots (joinRoom (joinRoom exJoinReg "B" "tokB" "K0" "CX").2
        "A" "tokA" "K" "CX").2 "K" ≤ 1 :=
  C10_fresh_join_connection_unique (joinRoom exJoinReg "B" "tokB" "K0" "CX").2
    "A" "tokA" "K" "CX" (by decide) (by decide)
    (by
      intro room hroom
      have hh : ((joinRoom exJoinReg "B" "tokB" "K0" "CX").2.find?
          (fun r => r.roomId == "A")) = some exRoomA := by decide
      rw [hh] at hroom
      cases hroom
      rfl)

/-! ### C5 — exactly one leader per non-empty room -/

/-- A member-only list contains no leaders. -/
theorem members_filter_nil (cs : List RoomController)
    (h : ∀ c ∈ cs, c.role = PlayerRole.member) :
    cs.filter (fun c => c.role == PlayerRole.leader) = [] := by
  induction cs with
  | nil => rfl
  | cons c rest ih =>
      have hc := h c (List.mem_cons_self c rest)
      simp only [List.filter_cons, hc]
      exact ih (fun x hx => h x (List.mem_cons_of_mem c hx))

/-- The leader-first shape forces exactly one leader in a non-empty list. -/
theorem leaderInv_filter_count (cs : List RoomController)
    (hinv : leaderInv cs) (hne : cs ≠ []) :
    (cs.filter (fun c => c.role == PlayerRole.leader)).length = 1 := by
  cases cs with
  | nil => exact absurd rfl hne
  | cons c rest =>
      obtain ⟨hc, hrest⟩ := hinv
      simp only [List.filter_cons, hc]
      rw [members_filter_nil rest hrest]
      rfl

/-- Re-binding a connection id preserves the role sequence. -/
theorem rebindFirst_roles (cs : List RoomController) (clientId channelId : String) :
    (rebindFirst cs clientId channelId).map (fun c => c.role) =
      cs.map (fun c => c.role) := by
  induction cs with
  | nil => rfl
  | cons c rest ih =>
      simp only [rebindFirst]
      split
      · simp
      · simp only [List.map_cons, ih]

/-- Marking a controller ready preserves the role sequence. -/
theorem setReadyFirst_roles (cs : List RoomController) (clientId : String) :
    (setReadyFirst cs clientId).map (fun c => c.role) =
      cs.map (fun c => c.role) := by
  induction cs with
  | nil => rfl
  | cons c rest ih =>
      simp only [setReadyFirst]
      split
      · simp
      · simp only [List.map_cons, ih]

/-- The leader-first shape only depends on the role sequence. -/
theorem leaderInv_of_roles : ∀ cs cs2 : List RoomController,
    cs.map (fun c => c.role) = cs2.map (fun c => c.role) →
    leaderInv cs2 → leaderInv cs
  | [], [], _, _ => trivial
  | [], c2 :: cs2, h, _ => by cases h
  | c :: cs, [], h, _ => by cases h
  | c :: cs, c2 :: cs2, h, hinv => by
      simp only [List.map_cons, List.cons.injEq] at h
      refine ⟨h.1 ▸ hinv.1, ?_⟩
      intro x hx
      have hmem : x.role ∈ cs2.map (fun c => c.role) := by
        rw [← h.2]
        exact List.mem_map_of_mem _ hx
      obtain ⟨x2, hx2, hrole⟩ := List.mem_map.mp hmem
      rw [← hrole]
      exact hinv.2 x2 hx2

/-- Appending a member keeps the leader-first shape of a non-empty list. -/
theorem leaderInv_append_member (cs : List RoomController) (x : RoomController)
    (hinv : leaderInv cs) (hne : cs ≠ []) (hx : x.role = PlayerRole.member) :
    leaderInv (cs ++ [x]) := by
  cases cs with
  | nil => exact absurd rfl hne
  | cons c rest =>
      obtain ⟨hc, hrest⟩ := hinv
      refine ⟨hc, ?_⟩
      intro c2 hc2
      cases List.mem_append.mp hc2 with
      | inl h => exact hrest c2 h
      | inr h =>
          rw [List.mem_singleton.mp h]
          exact hx

/-- The boolean the splice reports is the role test of the controller it
removed (which does carry the connection id and is in the list). -/
theorem removeFromControllers_wasLeader (cs : List RoomController) (channelId : String) :
    ∀ cs2 w, removeFromControllers cs channelId = some (cs2, w) →
      ∃ x ∈ cs, w = (x.role == PlayerRole.leader) ∧ (x.id == channelId) = true := by
  induction cs with
  | nil => intro cs2 w h; cases h
  | cons c rest ih =>
      intro cs2 w h
      simp only [removeFromControllers] at h
      by_cases hc : (c.id == channelId) = true
      · rw [if_pos hc] at h
        cases h
        exact ⟨c, List.mem_cons_self c rest, rfl, hc⟩
      · rw [if_neg hc] at h
        cases hrec : removeFromControllers rest channelId with
        | none => rw [hrec] at h; cases h
        | some p =>
            obtain ⟨rest2, w2⟩ := p
            rw [hrec] at h
            cases h
            obtain ⟨x, hxmem, hxw, hxid⟩ := ih rest2 _ hrec
            exact ⟨x, List.mem_cons_of_mem c hxmem, hxw, hxid⟩

/-- The splice plus the promotion step preserves the leader-first shape. -/
theorem leaderInv_remove (cs : List RoomController) (channelId : String)
    (cs2 : List RoomController) (w : Bool)
    (h : removeFromControllers cs channelId = some (cs2, w))
    (hinv : leaderInv cs) :
    leaderInv (if w && !cs2.isEmpty then promoteFirst cs2 else cs2) := by
  cases cs with
  | nil => cases h
  | cons c rest =>
      obtain ⟨hc, hrest⟩ := hinv
      simp only [removeFromControllers] at h
      by_cases hcid : (c.id == channelId) = true
      · rw [if_pos hcid] at h
        cases h
        cases cs2 with
        | nil =>
            simp only [List.isEmpty_nil, Bool.not_true, Bool.and_false, if_false, ite_false]
            trivial
        | cons c2 rest2 =>
            have hw : (c.role == PlayerRole.leader) = true := by simp [hc]
            rw [hw]
            simp only [List.isEmpty_cons, Bool.not_false, Bool.and_self, if_true, ite_true,
              promoteFirst]
            refine ⟨rfl, ?_⟩
            intro x hx
            exact hrest x (List.mem_cons_of_mem c2 hx)
      · rw [if_neg hcid] at h
        cases hrec : removeFromControllers rest channelId with
        | none => rw [hrec] at h; cases h
        | some p =>
            obtain ⟨rest2, w2⟩ := p
            rw [hrec] at h
            cases h
            obtain ⟨x, hxmem, hxw, hxid⟩ :=
              removeFromControllers_wasLeader rest channelId rest2 _ hrec
            have hxmember : x.role = PlayerRole.member := hrest x hxmem
            have hwfalse : w = false := by
              rw [hxw, hxmember]
              rfl
            rw [hwfalse]
            simp only [Bool.false_and, if_false, ite_false, Bool.false_eq_true]
            refine ⟨hc, ?_⟩
            intro c2 hc2
            exact hrest c2 (removeFromControllers_mem rest channelId rest2 _ hrec c2 hc2)

/-- With unique room ids, any member matching the searched id is the room
`find?` returns. -/
theorem find?_unique_of_nodup (roomId : String) (room r : Room) :
    ∀ rs : Registry, (rs.map (fun x => x.roomId)).Nodup →
      rs.find? (fun x => x.roomId == roomId) = some room →
      r ∈ rs → (r.roomId == roomId) = true → r = room := by
  intro rs
  induction rs with
  | nil => intro _ _ hr _; cases hr
  | cons a rest ih =>
      intro hnd hfind hr hid
      by_cases ha : (a.roomId == roomId) = true
      · have hfind2 : some a = some room := by
          simpa [List.find?, ha] using hfind
        cases hfind2
        cases List.mem_cons.mp hr with
        | inl h => exact h
        | inr h =>
            exfalso
            have h1 : r.roomId = roomId := by simpa using hid
            have h2 : room.roomId = roomId := by simpa using ha
            have hmem : room.roomId ∈ rest.map (fun x => x.roomId) := by
              rw [h2, ← h1]
              exact List.mem_map_of_mem _ h
            simp only [List.map_cons, List.nodup_cons] at hnd
            exact hnd.1 hmem
      · have hfind2 : rest.find? (fun x => x.roomId == roomId) = some room := by
          simpa [List.find?, ha] using hfind
        have hnd2 : (rest.map (fun x => x.roomId)).Nodup := by
          simp only [List.map_cons, List.nodup_cons] at hnd
          exact hnd.2
        cases List.mem_cons.mp hr with
        | inl h => rw [h] at hid; exact absurd hid ha
        | inr h => exact ih hnd2 hfind2 h hid

/-- The registry invariant survives an in-place room update that preserves
the room id and the leader-first shape of the (matching) updated room. -/
theorem RegInv_updateRoomById (rs : Registry) (roomId : String) (f : Room → Room)
    (h : RegInv rs) (hfid : ∀ r, (f r).roomId = r.roomId)
    (hfinv : ∀ r ∈ rs, (r.roomId == roomId) = true →
       leaderInv r.controllers → leaderInv (f r).controllers) :
    RegInv (updateRoomById rs roomId f) := by
  constructor
  · have hm : (updateRoomById rs roomId f).map (fun r => r.roomId) =
        rs.map (fun r => r.roomId) := by
      simp only [updateRoomById, List.map_map]
      refine List.map_congr_left ?_
      intro r _
      simp only [Function.comp_apply]
      by_cases hr : (r.roomId == roomId) = true
      · rw [if_pos hr]
        exact hfid r
      · rw [if_neg hr]
    rw [hm]
    exact h.1
  · intro r2 hr2
    simp only [updateRoomById] at hr2
    obtain ⟨r, hr, heq⟩ := List.mem_map.mp hr2
    by_cases hc : (r.roomId == roomId) = true
    · rw [← heq, if_pos hc]
      exact hfinv r hr hc (h.2 r hr)
    · rw [← heq, if_neg hc]
      exact h.2 r hr

/-- `mapSetRoom` preserves the registry invariant when the inserted room's
controller list has the leader-first shape. -/
theorem RegInv_mapSetRoom (rs : Registry) (room : Room)
    (h : RegInv rs) (hinv : leaderInv room.controllers) :
    RegInv (mapSetRoom rs room) := by
  unfold mapSetRoom
  by_cases hany : (rs.any (fun r => r.roomId == room.roomId)) = true
  · rw [if_pos hany]
    constructor
    · have hm : (rs.map (fun r => if (r.roomId == room.roomId) = true then room else r)).map
          (fun r => r.roomId) = rs.map (fun r => r.roomId) := by
        simp only [List.map_map]
        refine List.map_congr_left ?_
        intro r _
        simp only [Function.comp_apply]
        by_cases hr : (r.roomId == room.roomId) = true
        · rw [if_pos hr]
          exact ((by simpa using hr : r.roomId = room.roomId)).symm
        · rw [if_neg hr]
      rw [hm]
      exact h.1
    · intro r2 hr2
      obtain ⟨r, hr, heq⟩ := List.mem_map.mp hr2
      by_cases hc : (r.roomId == room.roomId) = true
      · rw [← heq, if_pos hc]
        exact hinv
      · rw [← heq, if_neg hc]
        exact h.2 r hr
  · rw [if_neg hany]
    have hall : ∀ r ∈ rs, (r.roomId == room.roomId) = false := by
      have hb : rs.any (fun r => r.roomId == room.roomId) = false := by
        simpa using hany
      intro r hr
      cases hh : (r.roomId == room.roomId) with
      | false => rfl
      | true =>
          have hc : rs.any (fun r => r.roomId == room.roomId) = true :=
            List.any_eq_true.mpr ⟨r, hr, hh⟩
          rw [hc] at hb
          cases hb
    constructor
    · rw [List.map_append, List.nodup_append]
      refine ⟨h.1, List.nodup_singleton _, ?_⟩
      intro x hx hx2
      simp only [List.map_cons, List.map_nil, List.mem_singleton] at hx2
      obtain ⟨r, hr, hrid⟩ := List.mem_map.mp hx
      have hfr := hall r hr
      rw [hrid, hx2] at hfr
      simp at hfr
    · intro r2 hr2
      cases List.mem_append.mp hr2 with
      | inl hl => exact h.2 r2 hl
      | inr hrr =>
          rw [List.mem_singleton.mp hrr]
          exact hinv

/-- Controller removal keeps every room's leader-first shape (promoting the
next controller when the leader left). -/
theorem removeController_leaderInv (channelId : String) :
    ∀ rs : Registry, (∀ room ∈ rs, leaderInv room.controllers) →
      ∀ room2 ∈ (removeController rs channelId).2, leaderInv room2.controllers := by
  intro rs
  induction rs with
  | nil => intro _ r hr; cases hr
  | cons room rest ih =>
      intro hmem room2 hr2
      cases hrm : removeFromControllers room.controllers channelId with
      | some p =>
          obtain ⟨cs2, w⟩ := p
          have hred : (removeController (room :: rest) channelId).2 =
              { room with controllers :=
                  if w && !cs2.isEmpty then promoteFirst cs2 else cs2 } :: rest := by
            simp only [removeController, hrm]
          rw [hred] at hr2
          cases List.mem_cons.mp hr2 with
          | inl hh =>
              rw [hh]
              exact leaderInv_remove room.controllers channelId cs2 w hrm
                (hmem room (List.mem_cons_self room rest))
          | inr ht => exact hmem room2 (List.mem_cons_of_mem room ht)
      | none =>
          have hred : (removeController (room :: rest) channelId).2 =
              room :: (removeController rest channelId).2 := by
            simp only [removeController, hrm]
          rw [hred] at hr2
          cases List.mem_cons.mp hr2 with
          | inl hh =>
              rw [hh]
              exact hmem room (List.mem_cons_self room rest)
          | inr ht =>
              exact ih (fun r hr => hmem r (List.mem_cons_of_mem room hr)) room2 ht

/-- The registry invariant survives `removeController`. -/
theorem RegInv_removeController (rs : Registry) (channelId : String)
    (h : RegInv rs) : RegInv (removeController rs channelId).2 := by
  constructor
  · rw [removeController_roomIds]
    exact h.1
  · exact removeController_leaderInv channelId rs h.2

/-- The registry invariant survives `createRoom`. -/
theorem RegInv_createRoom (rs : Registry) (roomId joinToken screenId : String)
    (h : RegInv rs) : RegInv (createRoom rs roomId joinToken screenId) :=
  RegInv_mapSetRoom rs _ h trivial

/-- The registry invariant survives `setPlayerReady`. -/
theorem RegInv_setPlayerReady (rs : Registry) (roomId clientId : String)
    (h : RegInv rs) : RegInv (setPlayerReady rs roomId clientId).2 := by
  cases hroom : rs.find? (fun r => r.roomId == roomId) with
  | none =>
      have hred : (setPlayerReady rs roomId clientId).2 = rs := by
        simp only [setPlayerReady, hroom]
      rw [hred]
      exact h
  | some room =>
      cases hctrl : room.controllers.find? (fun c => c.clientId == clientId) with
      | none =>
          have hred : (setPlayerReady rs roomId clientId).2 = rs := by
            simp only [setPlayerReady, hroom, hctrl]
          rw [hred]
          exact h
      | some c =>
          have hred : (setPlayerReady rs roomId clientId).2 =
              updateRoomById rs roomId (fun r =>
                { r with controllers := setReadyFirst r.controllers clientId }) := by
            simp only [setPlayerReady, hroom, hctrl]
          rw [hred]
          refine RegInv_updateRoomById rs roomId _ h (fun r => rfl) ?_
          intro r _ _ hinv
          exact leaderInv_of_roles _ _ (setReadyFirst_roles r.controllers clientId) hinv

/-- `startGame` either leaves the registry untouched or only flips
`gameStarted`. -/
theorem startGame_registry (rs : Registry) (roomId clientId : String) :
    (startGame rs roomId clientId).2 = rs ∨
    (startGame rs roomId clientId).2 =
      updateRoomById rs roomId (fun r => { r with gameStarted := true }) := by
  cases hroom : rs.find? (fun r => r.roomId == roomId) with
  | none =>
      left
      simp only [startGame, hroom]
  | some room =>
      cases hctrl : room.controllers.find? (fun c => c.clientId == clientId) with
      | none =>
          left
          simp only [startGame, hroom, hctrl]
      | some c =>
          by_cases hrole : c.role ≠ PlayerRole.leader
          · left
            simp only [startGame, hroom, hctrl]
            rw [if_pos hrole]
          · by_cases hcan : canStartGame rs roomId = true
            · right
              simp only [startGame, hroom, hctrl]
              rw [if_neg hrole, if_pos hcan]
            · left
              simp only [startGame, hroom, hctrl]
              rw [if_neg hrole, if_neg hcan]

/-- The registry invariant survives `startGame`. -/
theorem RegInv_startGame (rs : Registry) (roomId clientId : String)
    (h : RegInv rs) : RegInv (startGame rs roomId clientId).2 := by
  cases startGame_registry rs roomId clientId with
  | inl he => rw [he]; exact h
  | inr he =>
      rw [he]
      exact RegInv_updateRoomById rs roomId _ h (fun r => rfl) (fun r _ _ hinv => hinv)

/-- `RoomManager.setTeamName` either leaves the registry untouched or only
replaces a room's team state. -/
theorem setTeamName_registry (rs : Registry) (db : TeamStore)
    (roomId clientId name : String) :
    (RoomManager.setTeamName rs db roomId clientId name).2.1 = rs ∨
    ∃ tm, (RoomManager.setTeamName rs db roomId clientId name).2.1 =
      updateRoomById rs roomId (fun r => { r with team := tm }) := by
  cases hroom : rs.find? (fun r => r.roomId == roomId) with
  | none =>
      left
      simp only [RoomManager.setTeamName, hroom]
  | some room =>
      cases hctrl : room.controllers.find? (fun c => c.clientId == clientId) with
      | none =>
          left
          simp only [RoomManager.setTeamName, hroom, hctrl]
      | some c =>
          by_cases hrole : c.role ≠ PlayerRole.leader
          · left
            simp only [RoomManager.setTeamName, hroom, hctrl]
            rw [if_pos hrole]
          · right
            refine ⟨(TeamManager.setTeamName room.team db name).1, ?_⟩
            simp only [RoomManager.setTeamName, hroom, hctrl]
            rw [if_neg hrole]

/-- The registry invariant survives `RoomManager.setTeamName`. -/
theorem RegInv_setTeamName (rs : Registry) (db : TeamStore)
    (roomId clientId name : String)
    (h : RegInv rs) : RegInv (RoomManager.setTeamName rs db roomId clientId name).2.1 := by
  cases setTeamName_registry rs db roomId clientId name with
  | inl he => rw [he]; exact h
  | inr he =>
      obtain ⟨tm, he⟩ := he
      rw [he]
      exact RegInv_updateRoomById rs roomId _ h (fun r => rfl) (fun r _ _ hinv => hinv)

/-- `deleteRoomByScreen` returns a sublist of the registry. -/
theorem deleteRoomByScreen_sublist (channelId : String) :
    ∀ rs : Registry, (deleteRoomByScreen rs channelId).Sublist rs := by
  intro rs
  induction rs with
  | nil => simp [deleteRoomByScreen]
  | cons room rest ih =>
      simp only [deleteRoomByScreen]
      split
      · exact List.sublist_cons_self room rest
      · exact List.Sublist.cons₂ room ih

/-- The registry invariant survives `deleteRoomByScreen`. -/
theorem RegInv_deleteRoomByScreen (rs : Registry) (channelId : String)
    (h : RegInv rs) : RegInv (deleteRoomByScreen rs channelId) := by
  have hsub := deleteRoomByScreen_sublist channelId rs
  exact ⟨List.Nodup.sublist (List.Sublist.map _ hsub) h.1,
    fun r hr => h.2 r (hsub.subset hr)⟩

/-- The registry invariant survives `joinRoom`. -/
theorem RegInv_joinRoom (rs : Registry) (roomId token channelId clientId : String)
    (h : RegInv rs) : RegInv (joinRoom rs roomId token channelId clientId).2 := by
  cases hroom : rs.find? (fun r => r.roomId == roomId) with
  | none =>
      have hred : (joinRoom rs roomId token channelId clientId).2 = rs := by
        simp only [joinRoom, hroom]
      rw [hred]
      exact h
  | some room =>
      by_cases htok : (room.joinToken != token) = true
      · have hred : (joinRoom rs roomId token channelId clientId).2 = rs := by
          simp only [joinRoom, hroom, htok, if_true]
        rw [hred]
        exact h
      · have htokf : (room.joinToken != token) = false := by simpa using htok
        cases hex : room.controllers.find? (fun c => c.clientId == clientId) with
        | some existing =>
            have hred : (joinRoom rs roomId token channelId clientId).2 =
                updateRoomById rs roomId (fun r =>
                  { r with controllers := rebindFirst r.controllers clientId channelId }) := by
              simp only [joinRoom, hroom, htokf, hex, Bool.false_eq_true, if_false, ite_false]
            rw [hred]
            refine RegInv_updateRoomById rs roomId _ h (fun r => rfl) ?_
            intro r _ _ hinv
            exact leaderInv_of_roles _ _ (rebindFirst_roles r.controllers clientId channelId) hinv
        | none =>
            have h2 : RegInv (removeController rs channelId).2 :=
              RegInv_removeController rs channelId h
            cases hroom2 : (removeController rs channelId).2.find?
                (fun r => r.roomId == roomId) with
            | none =>
                have hred : (joinRoom rs roomId token channelId clientId).2 =
                    (removeController rs channelId).2 := by
                  simp only [joinRoom, hroom, htokf, hex, hroom2, Bool.false_eq_true,
                    if_false, ite_false]
                rw [hred]
                exact h2
            | some room2 =>
                by_cases hfull : MAX_PLAYERS_PER_ROOM ≤ room2.controllers.length
                · have hred : (joinRoom rs roomId token channelId clientId).2 =
                      (removeController rs channelId).2 := by
                    simp only [joinRoom, hroom, htokf, hex, hroom2, Bool.false_eq_true,
                      if_false, ite_false]
                    rw [if_pos hfull]
                  rw [hred]
                  exact h2
                · by_cases hgs : room2.gameStarted = true
                  · have hred : (joinRoom rs roomId token channelId clientId).2 =
                        (removeController rs channelId).2 := by
                      simp only [joinRoom, hroom, htokf, hex, hroom2, Bool.false_eq_true,
                        if_false, ite_false]
                      rw [if_neg hfull, if_pos hgs]
                    rw [hred]
                    exact h2
                  · have hred : (joinRoom rs roomId token channelId clientId).2 =
                        updateRoomById (removeController rs channelId).2 roomId (fun r =>
                          { r with controllers := r.controllers ++
                              [{ id := channelId, clientId := clientId,
                                 role := if (room2.controllers.length == 0) = true then
                                     PlayerRole.leader else PlayerRole.member,
                                 isReady := (if (room2.controllers.length == 0) = true then
                                     PlayerRole.leader else PlayerRole.member)
                                   == PlayerRole.leader,
                                 colorIndex := room2.controllers.length }] }) := by
                      simp only [joinRoom, hroom, htokf, hex, hroom2, Bool.false_eq_true,
                        if_false, ite_false]
                      rw [if_neg hfull, if_neg (by simp [hgs])]
                    rw [hred]
                    refine RegInv_updateRoomById _ roomId _ h2 (fun r => rfl) ?_
                    intro r hr hmatch hinv
                    have hrroom : r = room2 :=
                      find?_unique_of_nodup roomId room2 r _ h2.1 hroom2 hr hmatch
                    subst hrroom
                    by_cases hempty : (r.controllers.length == 0) = true
                    · have hnil : r.controllers = [] :=
                        List.length_eq_zero.mp (by simpa using hempty)
                      rw [hnil, List.nil_append]
                      exact ⟨rfl, fun x hx => absurd hx (List.not_mem_nil x)⟩
                    · have hne : r.controllers ≠ [] := by
                        intro hnil
                        apply hempty
                        rw [hnil]
                        rfl
                      refine leaderInv_append_member _ _ hinv hne ?_
                      show (if (r.controllers.length == 0) = true then PlayerRole.leader
                          else PlayerRole.member) = PlayerRole.member
                      rw [if_neg hempty]

/-- Every reachable registry satisfies the invariant. -/
theorem reachable_RegInv {rs : Registry} (h : Reachable rs) : RegInv rs := by
  induction h with
  | init => exact ⟨List.nodup_nil, fun r hr => absurd hr (List.not_mem_nil r)⟩
  | create roomId joinToken screenId hprev ih => exact RegInv_createRoom _ _ _ _ ih
  | join roomId token channelId clientId hprev ih => exact RegInv_joinRoom _ _ _ _ _ ih
  | ready roomId clientId hprev ih => exact RegInv_setPlayerReady _ _ _ ih
  | start roomId clientId hprev ih => exact RegInv_startGame _ _ _ ih
  | remove channelId hprev ih => exact RegInv_removeController _ _ ih
  | delScreen channelId hprev ih => exact RegInv_deleteRoomByScreen _ _ ih
  | team db roomId clientId name hprev ih => exact RegInv_setTeamName _ _ _ _ _ ih

/-- C5: in every reachable registry state, each non-empty room has exactly
one controller with role `leader`; a fresh client joining an empty
(necessarily lobby-state) room becomes its leader with colour 0; and when
`removeController` removes the leader while controllers remain, the next
controller in original join order is the new leader and is auto-marked
ready. -/
theorem C5_unique_leader :
    (∀ rs : Registry, Reachable rs → ∀ room ∈ rs, room.controllers ≠ [] →
        (room.controllers.filter (fun c => c.role == PlayerRole.leader)).length = 1) ∧
    (∀ (rs : Registry) (roomId token channelId clientId : String) (room : Room),
        rs.find? (fun r => r.roomId == roomId) = some room →
        room.joinToken = token →
        room.controllers = [] →
        room.gameStarted = false →
        (∀ r ∈ rs, ∀ c ∈ r.controllers, (c.id == channelId) = false) →
        (joinRoom rs roomId token channelId clientId).1 =
          { success := true, role := some PlayerRole.leader, colorIndex := some 0 }) ∧
    (∀ rs : Registry, ∀ (rs2 : Registry) (channelId : String) (room2 : Room),
        removeController rs channelId = (some (room2, true), rs2) →
        room2.controllers ≠ [] →
        ∃ c rest, room2.controllers = c :: rest ∧
          c.role = PlayerRole.leader ∧ c.isReady = true) := by
  refine ⟨?_, ?_, ?_⟩
  · intro rs hreach room hroom hne
    exact leaderInv_filter_count room.controllers
      ((reachable_RegInv hreach).2 room hroom) hne
  · intro rs roomId token channelId clientId room hroom htok hnil hgs hchan
    have htokf : (room.joinToken != token) = false := by simp [htok]
    have hnone : room.controllers.find? (fun c => c.clientId == clientId) = none := by
      rw [hnil]
      rfl
    have hrem : removeController rs channelId = (none, rs) :=
      removeController_not_found rs channelId hchan
    have hlen : ¬ (MAX_PLAYERS_PER_ROOM ≤ room.controllers.length) := by
      rw [hnil]
      decide
    simp only [joinRoom, hroom, htokf, hnone, hrem, Bool.false_eq_true, if_false, ite_false]
    rw [if_neg hlen, if_neg (by simp [hgs]), if_pos (by rw [hnil]; rfl)]
    rw [hnil]
    rfl
  · intro rs
    induction rs with
    | nil => intro rs2 channelId room2 h; cases h
    | cons room rest ih =>
        intro rs2 channelId room2 h hne
        cases hrm : removeFromControllers room.controllers channelId with
        | some p =>
            obtain ⟨cs2, w⟩ := p
            have hred : removeController (room :: rest) channelId =
                (some ({ room with controllers :=
                    if w && !cs2.isEmpty then promoteFirst cs2 else cs2 }, w),
                 { room with controllers :=
                    if w && !cs2.isEmpty then promoteFirst cs2 else cs2 } :: rest) := by
              simp only [removeController, hrm]
            rw [hred] at h
            simp only [Prod.mk.injEq, Option.some.injEq] at h
            obtain ⟨⟨hroomX, hw⟩, -⟩ := h
            subst hroomX
            subst hw
            cases cs2 with
            | nil => exact absurd rfl hne
            | cons c2 rest2 =>
                exact ⟨{ c2 with role := PlayerRole.leader, isReady := true }, rest2,
                  rfl, rfl, rfl⟩
        | none =>
            have hred : removeController (room :: rest) channelId =
                ((removeController rest channelId).1,
                 room :: (removeController rest channelId).2) := by
              simp only [removeController, hrm]
            rw [hred] at h
            simp only [Prod.mk.injEq] at h
            obtain ⟨h1, -⟩ := h
            exact ih (removeController rest channelId).2 channelId room2
              (Prod.ext h1 rfl) hne

/-- Witness for C5: in the reachable registry obtained by creating rooms
`"A"` and `"B"` and having `CX` join `"A"`, room `"A"` has exactly one
leader. -/
theorem C5_witness :
    (exRoomAJoined.controllers.filter (fun c => c.role == PlayerRole.leader)).length = 1 :=
  C5_unique_leader.1 (joinRoom exJoinReg "A" "tokA" "K" "CX").2
    (Reachable.join "A" "tokA" "K" "CX"
      (Reachable.create "B" "tokB" "scrB"
        (Reachable.create "A" "tokA" "scrA" Reachable.init)))
    exRoomAJoined (by decide) (by decide)

end QuizWall
